import Mathlib

/-!
Verification development for the Signal Scanning & Idea Aggregation Engine
(pattern classifier, idea-key clustering, source adapters, scan orchestrator,
trend engine, scheduler).

Conventions of the embedding:
* Python strings are Lean `String`s; Python lists are Lean `List`s.
* Timestamps (`datetime` values) are integers counting whole seconds since
  the epoch; `timedelta(days=d)` is `d * 86400` seconds.
* Python `dict`s keyed by strings are association lists in insertion order;
  Python `set`s are `Finset String`.
* Network fetches are modelled by their results: an adapter takes the data
  the provider returned; a raised exception is an `Except.error` carrying
  the exception message.
-/

/-! ## Pattern classifier (src/app/scanning.py)

`PATTERN_GROUPS` is reproduced below with the exact character content of the
Python raw-string literals: each `r"\\b"` in the source is a raw string, so
the compiled pattern contains the two characters `\` `\` followed by `b`,
which the `re` module parses as an escaped literal backslash followed by a
literal `b` (not a word boundary).  The regular-expression dialect actually
used by these patterns is: literal characters, `(...)` groups, `|`
alternation, the `?` optional quantifier and `\`-escapes; `Rx`, the parser
and the matcher below implement exactly that fragment, with
`re.IGNORECASE` realised by lower-casing both pattern and text. -/

/-- Abstract syntax of the regular-expression fragment used by
`PATTERN_GROUPS`. -/
inductive Rx where
  | eps : Rx
  | ch (c : Char) : Rx
  | seq (a b : Rx) : Rx
  | alt (a b : Rx) : Rx
  | opt (a : Rx) : Rx
deriving DecidableEq

/-- All suffixes of `s` remaining after `r` matches some prefix of `s`. -/
def remainders : Rx → List Char → List (List Char)
  | .eps, s => [s]
  | .ch _, [] => []
  | .ch c, x :: xs => if x = c then [xs] else []
  | .seq a b, s => (remainders a s).flatMap (fun t => remainders b t)
  | .alt a b, s => remainders a s ++ remainders b s
  | .opt a, s => s :: remainders a s

/-- Model of `re.search` as a Boolean: does `r` match starting at any position? -/
def searchRx (r : Rx) (s : List Char) : Bool :=
  s.tails.any (fun t => !(remainders r t).isEmpty)

mutual

/-- Parse an alternation `seq ('|' seq)*`. -/
def parseRxAlt : Nat → List Char → Option (Rx × List Char)
  | 0, _ => none
  | Nat.succ fuel, s =>
    match parseRxSeq fuel s with
    | none => none
    | some (r, rest) =>
      match rest with
      | '|' :: more =>
        match parseRxAlt fuel more with
        | none => none
        | some (r2, rest2) => some (.alt r r2, rest2)
      | _ => some (r, rest)

/-- Parse a concatenation of atoms, each optionally followed by `?`. -/
def parseRxSeq : Nat → List Char → Option (Rx × List Char)
  | 0, _ => none
  | Nat.succ fuel, s =>
    match s with
    | [] => some (.eps, [])
    | c :: _ =>
      if c = ')' ∨ c = '|' then some (.eps, s)
      else
        match parseRxAtom fuel s with
        | none => none
        | some (a, rest1) =>
          let step : Rx × List Char :=
            match rest1 with
            | '?' :: more => (Rx.opt a, more)
            | _ => (a, rest1)
          match parseRxSeq fuel step.2 with
          | none => none
          | some (b, rest3) => some (.seq step.1 b, rest3)

/-- Parse one atom: a group, an escape, or a literal character.  Escapes of
alphanumeric characters (character classes such as `\d`) are outside the
fragment and are rejected; every escape occurring in `PATTERN_GROUPS` is
`\\`, an escaped literal backslash. -/
def parseRxAtom : Nat → List Char → Option (Rx × List Char)
  | 0, _ => none
  | Nat.succ fuel, s =>
    match s with
    | [] => none
    | '(' :: rest =>
      match parseRxAlt fuel rest with
      | none => none
      | some (r, rest1) =>
        match rest1 with
        | ')' :: more => some (r, more)
        | _ => none
    | '\\' :: c :: rest =>
      if c.isAlphanum then none else some (.ch c.toLower, rest)
    | c :: rest =>
      if c = ')' ∨ c = '|' ∨ c = '?' ∨ c = '\\' then none
      else some (.ch c.toLower, rest)

end

/-- Parse a whole pattern string into the `Rx` fragment. -/
def parseRx (p : String) : Option Rx :=
  match parseRxAlt (2 * p.length + 8) p.data with
  | some (r, []) => some r
  | _ => none

/-- Model of `PATTERN_GROUPS` from src/app/scanning.py.  Each entry is the exact
character content of the corresponding Python raw-string literal: `r"\\b"`
holds backslash, backslash, `b`. -/
def PATTERN_GROUPS : List (String × List String) :=
  [ ("app_request",
      [ "\\\\bis there (an|a) app\\\\b",
        "\\\\bis there an? (tool|software|service)\\\\b",
        "\\\\bany app (for|that)\\\\b",
        "\\\\bdoes anyone know (an? )?(app|tool|software|service)\\\\b",
        "\\\\blooking for (an? )?(app|tool|software|service)\\\\b",
        "\\\\bneed (an? )?(app|tool|software|service)\\\\b",
        "\\\\bapp that (can|does|will)\\\\b",
        "\\\\balternative to\\\\b" ]),
    ("pain",
      [ "\\\\bfrustrat(ed|ing)\\\\b",
        "\\\\bthis (sucks|is awful|is terrible)\\\\b",
        "\\\\bwhy is (there|this) no\\\\b",
        "\\\\bwish there (was|were)\\\\b",
        "\\\\bhate (having|to|that)\\\\b",
        "\\\\bpain point\\\\b",
        "\\\\bproblem is\\\\b",
        "\\\\bstruggling with\\\\b" ]),
    ("pay",
      [ "\\\\bi\x27?d pay\\\\b",
        "\\\\bi would pay\\\\b",
        "\\\\bwilling to pay\\\\b",
        "\\\\bpay for (an? )?(app|tool|software|service)\\\\b",
        "\\\\bhappily pay\\\\b" ]) ]

/-- Model of `compile_patterns` from src/app/scanning.py.  The source joins each
group with `"|"` and compiles one alternation per group; searching that
alternation succeeds exactly when some member pattern matches, so the
compiled group is kept as the list of its parsed members. -/
def compile_patterns : List (String × List Rx) :=
  PATTERN_GROUPS.map (fun g => (g.1, g.2.filterMap parseRx))

/-- Model of `match_groups` from src/app/scanning.py: the list of group names whose
compiled alternation matches anywhere in `text` (case-insensitively), in
the order the groups are declared. -/
def match_groups (text : String) : List String :=
  compile_patterns.filterMap (fun g =>
    if g.2.any (fun r => searchRx r (text.data.map Char.toLower))
    then some g.1 else none)

/-! ## Idea key generator (src/app/scanning.py) -/

/-- Model of `STOPWORDS` from src/app/scanning.py. -/
def STOPWORDS : List String :=
  [ "this", "that", "with", "from", "they", "them", "then", "than", "there",
    "here", "have", "has", "had", "your", "yours", "what", "which", "when",
    "where", "would", "could", "should", "their", "about", "into", "just",
    "like", "really", "very", "much", "some", "more", "most", "also", "only",
    "does", "doing", "done", "need", "want", "looking", "app", "apps",
    "tool", "tools", "software", "service", "services", "help", "anyone",
    "know", "find", "use", "using", "used", "make", "making", "made" ]

def isLowerAZ (c : Char) : Bool := 'a' ≤ c && c ≤ 'z'

/-- Worker for `re.findall(r"[a-z]+", ·)` restricted to runs of length at
least 4: the regex scanner is greedy, so each maximal run of lowercase
letters of length ≥ 4 yields exactly one token (a shorter run fails at
every start position inside it and is skipped whole).  `fuel` bounds the
recursion by the input length; every step consumes at least one
character. -/
def findWords : Nat → List Char → List String
  | 0, _ => []
  | Nat.succ fuel, s =>
    match s with
    | [] => []
    | c :: rest =>
      if isLowerAZ c then
        let run := s.takeWhile isLowerAZ
        let after := s.dropWhile isLowerAZ
        if 4 ≤ run.length then String.mk run :: findWords fuel after
        else findWords fuel after
      else findWords fuel rest

/-- Model of `re.findall(r"[a-z]{4,}", s)` on an already lower-cased character
list. -/
def pyFindallAlpha (s : List Char) : List String := findWords s.length s

/-- The token stream of `idea_key`: lower-case the text, take alphabetic
tokens of length ≥ 4, drop the stop words. -/
def filteredWords (text : String) : List String :=
  (pyFindallAlpha (text.data.map Char.toLower)).filter
    (fun w => !(STOPWORDS.contains w))

/-- Worker for `dedupFirst`; `fuel` bounds the recursion by the input
length (each step strictly shortens the list). -/
def dedupFirstAux : Nat → List String → List String
  | 0, _ => []
  | Nat.succ _, [] => []
  | Nat.succ fuel, w :: ws => w :: dedupFirstAux fuel (ws.filter (fun v => v != w))

/-- Distinct elements of a list in order of first occurrence: the key order
of `collections.Counter` (a `dict` keyed by first insertion). -/
def dedupFirst (l : List String) : List String := dedupFirstAux l.length l

/-- The sort order of `Counter.most_common`: descending count; equal counts
keep first-occurrence order (`heapq.nlargest` is documented as
`sorted(..., reverse=True)[:n]`, a stable descending sort, realised here by
breaking ties on the index of the first occurrence in the token stream). -/
def mostCommonR (ws : List String) (a b : String) : Prop :=
  ws.count b < ws.count a ∨
    (ws.count a = ws.count b ∧ List.indexOf a ws ≤ List.indexOf b ws)

instance (ws : List String) : DecidableRel (mostCommonR ws) := fun _ _ =>
  inferInstanceAs (Decidable (_ ∨ (_ ∧ _)))

/-- Model of `idea_key` from src/app/scanning.py. -/
def idea_key (text : String) : String :=
  let words := filteredWords text
  if words.isEmpty then "uncategorized"
  else
    String.intercalate " "
      ((List.insertionSort (mostCommonR words) (dedupFirst words)).take 6)

instance (ws : List String) : IsTotal String (mostCommonR ws) := ⟨by
  intro a b
  rcases Nat.lt_trichotomy (ws.count a) (ws.count b) with h | h | h
  · exact Or.inr (Or.inl h)
  · rcases Nat.le_total (List.indexOf a ws) (List.indexOf b ws) with hle | hle
    · exact Or.inl (Or.inr ⟨h, hle⟩)
    · exact Or.inr (Or.inr ⟨h.symm, hle⟩)
  · exact Or.inl (Or.inl h)⟩

instance (ws : List String) : IsTrans String (mostCommonR ws) := ⟨by
  intro a b c hab hbc
  rcases hab with h1 | ⟨e1, l1⟩ <;> rcases hbc with h2 | ⟨e2, l2⟩
  · exact Or.inl (h2.trans h1)
  · exact Or.inl (e2 ▸ h1)
  · exact Or.inl (e1 ▸ h2)
  · exact Or.inr ⟨e1.trans e2, l1.trans l2⟩⟩

/-- The spec-side ordering on tokens: strictly more frequent first, and
among equally frequent tokens the one whose first occurrence in the token
stream comes earlier. -/
def specPrec (ws : List String) (a b : String) : Prop :=
  ws.count b < ws.count a ∨
    (ws.count a = ws.count b ∧ List.indexOf a ws < List.indexOf b ws)

instance (ws : List String) : DecidableRel (specPrec ws) := fun _ _ =>
  inferInstanceAs (Decidable (_ ∨ (_ ∧ _)))

/-! ## Idea summaries and merging (src/app/main.py, src/app/scanning.py)

A summary is the Python `dict` keyed by idea key, modelled as an
association list in insertion order; the `sources`/`subreddits` `set`s are
`Finset String`. -/

/-- One idea-summary bucket. -/
structure Bucket where
  mentions : Nat
  pay_mentions : Nat
  sources : Finset String
  subreddits : Finset String
  sample_title : String
  sample_url : String
deriving DecidableEq

/-- Model of `_new_summary_bucket` from src/app/main.py (also the `defaultdict`
default in `scan_subreddits` and the inline fresh bucket of the other
adapters). -/
def new_summary_bucket : Bucket :=
  { mentions := 0, pay_mentions := 0, sources := ∅, subreddits := ∅,
    sample_title := "", sample_url := "" }

/-- A scan summary: idea key to bucket, in insertion order. -/
abbrev Summary := List (String × Bucket)

/-- Model of `dict` lookup. -/
def getBucket (s : Summary) (k : String) : Option Bucket :=
  match s.find? (fun e => e.1 == k) with
  | some e => some e.2
  | none => none

/-- Model of `dict` store: replaces in place, or appends a new key at the end. -/
def setBucket : Summary → String → Bucket → Summary
  | [], k, b => [(k, b)]
  | e :: rest, k, b =>
    if e.1 = k then (k, b) :: rest else e :: setBucket rest k b

/-- Per-item bucket accumulation, shared verbatim by all four adapters:
increment `mentions`, increment `pay_mentions` when the item has a pay
signal, add the source name and the bucket label, and record the first
sample title/URL (the sample is set only while `sample_title` is the empty
string, matching the Python falsiness test). -/
def addToSummary (s : Summary) (key : String) (pay : Bool)
    (src lbl title url : String) : Summary :=
  let bucket := (getBucket s key).getD new_summary_bucket
  let b1 : Bucket :=
    { bucket with
      mentions := bucket.mentions + 1,
      pay_mentions := bucket.pay_mentions + (if pay then 1 else 0),
      sources := insert src bucket.sources,
      subreddits := insert lbl bucket.subreddits }
  let b2 : Bucket :=
    if bucket.sample_title = "" then
      { b1 with sample_title := title, sample_url := url }
    else b1
  setBucket s key b2

/-- The update `merge_summaries` applies to the target bucket for one
incoming `data` bucket: sum the counters, union the sets, and copy the
incoming sample when the target has none and the incoming one is
non-empty (both emptiness tests are the Python falsiness tests on the
strings). -/
def mergeBucket (bucket data : Bucket) : Bucket :=
  let b1 : Bucket :=
    { bucket with
      mentions := bucket.mentions + data.mentions,
      pay_mentions := bucket.pay_mentions + data.pay_mentions,
      sources := bucket.sources ∪ data.sources,
      subreddits := bucket.subreddits ∪ data.subreddits }
  if bucket.sample_title = "" ∧ data.sample_title ≠ "" then
    { b1 with sample_title := data.sample_title,
              sample_url := data.sample_url }
  else b1

/-- The loop body of `merge_summaries` for one incoming `(key, data)`
entry: get or create the target bucket and store the merged bucket. -/
def mergeStep (t : Summary) (e : String × Bucket) : Summary :=
  setBucket t e.1 (mergeBucket ((getBucket t e.1).getD new_summary_bucket) e.2)

/-- Model of `merge_summaries` from src/app/main.py: fold the incoming summary's
entries (in insertion order) into the target. -/
def merge_summaries (target incoming : Summary) : Summary :=
  incoming.foldl mergeStep target

/-- Total mentions recorded in a summary. -/
def sumMentions (s : Summary) : Nat := (s.map (fun e => e.2.mentions)).sum

/-- Aggregate accessors with the defaults of an absent key. -/
def mAt (s : Summary) (k : String) : Nat :=
  ((getBucket s k).map Bucket.mentions).getD 0

def pAt (s : Summary) (k : String) : Nat :=
  ((getBucket s k).map Bucket.pay_mentions).getD 0

def srcAt (s : Summary) (k : String) : Finset String :=
  ((getBucket s k).map Bucket.sources).getD ∅

def subAt (s : Summary) (k : String) : Finset String :=
  ((getBucket s k).map Bucket.subreddits).getD ∅

def presentAt (s : Summary) (k : String) : Bool := (getBucket s k).isSome

/-- The bucket invariant: pay mentions never exceed mentions. -/
def InvSum (s : Summary) : Prop := ∀ e ∈ s, e.2.pay_mentions ≤ e.2.mentions

instance (s : Summary) : Decidable (InvSum s) :=
  inferInstanceAs (Decidable (∀ e ∈ s, _ ≤ _))

/-- Sum of `mentions` over the incoming entries carrying key `k`. -/
def incM (inc : Summary) (k : String) : Nat :=
  ((inc.filter (fun e => e.1 == k)).map (fun e => e.2.mentions)).sum

def incP (inc : Summary) (k : String) : Nat :=
  ((inc.filter (fun e => e.1 == k)).map (fun e => e.2.pay_mentions)).sum

def incSrc (inc : Summary) (k : String) : Finset String :=
  ((inc.filter (fun e => e.1 == k)).map (fun e => e.2.sources)).foldr
    (fun a b => a ∪ b) ∅

def incSub (inc : Summary) (k : String) : Finset String :=
  ((inc.filter (fun e => e.1 == k)).map (fun e => e.2.subreddits)).foldr
    (fun a b => a ∪ b) ∅

/-! ## Matched rows and source adapters

Network calls are modelled by the payload the provider returned: a Reddit
listing is the list of submissions (with their comment trees after
`replace_more`), a search is the list of posts/statuses/tweets per query.
Provider-side request parameters (listing `limit`, `max_results`, Bluesky's
page limit, `base_url`, credentials) shape that payload and are not
re-applied client-side, so they do not appear below; rate-limit metadata
is presentation-only and omitted.  Row fields hold the same strings the
code computes; creation timestamps are integer seconds (`none` when the provider
omitted the field). -/

/-- One matched item (a `scan_results` row). -/
structure Row where
  source : String
  subreddit : String
  itemType : String
  id : String
  created : Option Int
  score : Int
  title : String
  url : String
  permalink : String
  match_groups : String
  willing_to_pay : String
  idea_key : String
  snippet : String
deriving DecidableEq

/-- Python `str.strip()` (whitespace trim) on a character list. -/
def trimChars (l : List Char) : List Char :=
  ((l.dropWhile Char.isWhitespace).reverse.dropWhile Char.isWhitespace).reverse

/-- Model of `text[:220].replace("\n", " ").strip()`. -/
def snippetOf (text : String) : String :=
  String.mk (trimChars ((text.data.take 220).map (fun c => if c = '\n' then ' ' else c)))

/-- Model of `text[:80] + ("..." if len(text) > 80 else "")` (the X adapter phrases
the same computation as `(text[:80] + "...") if len(text) > 80 else text`). -/
def titleTrunc (text : String) : String :=
  text.take 80 ++ (if 80 < text.length then "..." else "")

/-- The result triple/quadruple of one adapter run: matched rows, running
idea summary and fetch statistics. -/
structure AdapterOutput where
  rows : List Row
  summary : Summary
  fetched_total : Nat
  fetched_submissions : Nat
  fetched_comments : Nat
  matched : Nat
deriving DecidableEq

def emptyOutput : AdapterOutput :=
  { rows := [], summary := [], fetched_total := 0, fetched_submissions := 0,
    fetched_comments := 0, matched := 0 }

/-- The shared append performed for every matching item: push the row and
accumulate it into the summary bucket of its idea key. -/
def pushMatch (acc : AdapterOutput) (row : Row) (key : String) (pay : Bool)
    (src lbl sampleTitle sampleUrl : String) : AdapterOutput :=
  { acc with
    rows := acc.rows ++ [row],
    summary := addToSummary acc.summary key pay src lbl sampleTitle sampleUrl,
    matched := acc.matched + 1 }

/-! ### Reddit (src/app/scanning.py, `scan_subreddits`) -/

structure RedditComment where
  created_utc : Int
  id : String
  score : Int
  body : String
  permalink : String
deriving DecidableEq

structure Submission where
  created_utc : Int
  id : String
  score : Int
  title : String
  selftext : String
  url : String
  permalink : String
  comments : List RedditComment
deriving DecidableEq

/-- Model of `iter_comments` from src/app/scanning.py, on the comment list produced
by the provider after `replace_more(limit=0)` (which removes the unexpanded
"load more" stubs).  The break test is `if limit and count >= limit`, so a
zero limit is falsy and yields every comment, and a negative limit breaks
before the first yield. -/
def iter_comments (comments : List RedditComment) (limit : Int) : List RedditComment :=
  if limit = 0 then comments
  else if limit < 0 then []
  else comments.take limit.toNat

/-- Comment handling inside `scan_subreddits`: filter by the cutoff, count
it as fetched, classify, honour the strictness flag, and append. -/
def redditCommentStep (name subTitle subUrl : String)
    (require_app_request : Bool) (cutoff : Int)
    (acc : AdapterOutput) (c : RedditComment) : AdapterOutput :=
  if c.created_utc < cutoff then acc
  else
    let acc1 := { acc with fetched_total := acc.fetched_total + 1,
                           fetched_comments := acc.fetched_comments + 1 }
    let groups := match_groups c.body
    if require_app_request && !(groups.contains "app_request") then acc1
    else if groups.isEmpty then acc1
    else
      let key := idea_key c.body
      let pay := groups.contains "pay"
      let permalink := "https://www.reddit.com" ++ c.permalink
      pushMatch acc1
        { source := "Reddit", subreddit := name, itemType := "comment",
          id := c.id, created := some c.created_utc, score := c.score,
          title := subTitle, url := subUrl, permalink := permalink,
          match_groups := String.intercalate ";" groups,
          willing_to_pay := if pay then "yes" else "no",
          idea_key := key, snippet := snippetOf c.body }
        key pay "Reddit" name subTitle permalink

/-- Submission handling inside `scan_subreddits` (one loop iteration):
filter by the cutoff (which also skips the submission's comments), count,
classify title+selftext, honour the strictness flag, append, then walk the
comments when enabled. -/
def redditSubmissionStep (name : String) (cutoff : Int)
    (include_comments : Bool) (comment_limit : Int) (require_app_request : Bool)
    (acc : AdapterOutput) (sub : Submission) : AdapterOutput :=
  if sub.created_utc < cutoff then acc
  else
    let acc1 := { acc with fetched_total := acc.fetched_total + 1,
                           fetched_submissions := acc.fetched_submissions + 1 }
    let text := String.intercalate " "
      (([sub.title, sub.selftext]).filter (fun p => p ≠ ""))
    let groups0 := match_groups text
    let groups :=
      if require_app_request && !(groups0.contains "app_request") then []
      else groups0
    let acc2 :=
      if groups.isEmpty then acc1
      else
        let key := idea_key text
        let pay := groups.contains "pay"
        let permalink := "https://www.reddit.com" ++ sub.permalink
        pushMatch acc1
          { source := "Reddit", subreddit := name, itemType := "submission",
            id := sub.id, created := some sub.created_utc, score := sub.score,
            title := sub.title, url := sub.url, permalink := permalink,
            match_groups := String.intercalate ";" groups,
            willing_to_pay := if pay then "yes" else "no",
            idea_key := key, snippet := snippetOf sub.selftext }
          key pay "Reddit" name sub.title permalink
    if include_comments then
      (iter_comments sub.comments comment_limit).foldl
        (redditCommentStep name sub.title sub.url require_app_request cutoff) acc2
    else acc2

/-- Model of `scan_subreddits` from src/app/scanning.py over the fetched listings
(`subs` maps each subreddit name to the result of `subreddit.new`, whose
`post_limit` is a provider-side parameter). -/
def scan_subreddits (subs : List (String × List Submission)) (now : Int)
    (since_days : Int) (include_comments : Bool) (comment_limit : Int)
    (require_app_request : Bool) : AdapterOutput :=
  let cutoff := now - since_days * 86400
  subs.foldl (fun acc p =>
    p.2.foldl
      (redditSubmissionStep p.1 cutoff include_comments comment_limit
        require_app_request) acc)
    emptyOutput

/-! ### X (src/app/x_scanning.py) -/

structure Tweet where
  text : String
  created_at : Option Int
  like_count : Int
  retweet_count : Int
  id : String
deriving DecidableEq

/-- The `start_time` request parameter of `fetch_recent_tweets`:
`since_days` clamped into 1..7 days, subtracted from now (the window is
requested from the provider, not filtered client-side). -/
def x_start_time (now : Int) (since_days : Int) : Int :=
  now - min (max since_days 1) 7 * 86400

/-- Model of `fetch_recent_tweets`, given the pages the provider returned as one
concatenated list: the pagination loop stops once `limit` items are
collected and returns `collected[:limit]`. -/
def fetch_recent_tweets (collected : List Tweet) (limit : Nat) : List Tweet :=
  collected.take limit

/-- Model of `build_query` from src/app/x_scanning.py. -/
def build_query (raw_query language : String) (include_retweets : Bool) : String :=
  String.intercalate " "
    ((([String.mk (trimChars raw_query.data)]
        ++ (if language ≠ "" then ["lang:" ++ language] else [])
        ++ (if !include_retweets then ["-is:retweet"] else []))).filter
      (fun p => p ≠ ""))

/-- Tweet handling inside `scan_x_queries`: classify and append (a missing
`created_at` falls back to the current time). -/
def xTweetStep (raw_query : String) (now : Int)
    (acc : AdapterOutput) (tw : Tweet) : AdapterOutput :=
  let groups := match_groups tw.text
  if groups.isEmpty then acc
  else
    let created := tw.created_at.getD now
    let key := idea_key tw.text
    let pay := groups.contains "pay"
    let url := "https://x.com/i/web/status/" ++ tw.id
    pushMatch acc
      { source := "X", subreddit := "query:" ++ raw_query, itemType := "tweet",
        id := tw.id, created := some created,
        score := tw.like_count + tw.retweet_count,
        title := titleTrunc tw.text, url := url, permalink := url,
        match_groups := String.intercalate ";" groups,
        willing_to_pay := if pay then "yes" else "no",
        idea_key := key, snippet := snippetOf tw.text }
      key pay "X" ("query:" ++ raw_query) (titleTrunc tw.text) url

/-- Model of `scan_x_queries` from src/app/x_scanning.py over the fetched tweets per
query (`language`/`include_retweets` only shape the provider query string
via `build_query`). -/
def scan_x_queries (queries : List (String × List Tweet))
    (limit_per_query : Nat) (now : Int) : AdapterOutput :=
  let r := queries.foldl (fun acc q =>
    let tweets := fetch_recent_tweets q.2 limit_per_query
    let acc1 := { acc with fetched_total := acc.fetched_total + tweets.length }
    tweets.foldl (xTweetStep q.1 now) acc1) emptyOutput
  { r with matched := r.rows.length }

/-! ### Bluesky (src/app/bsky_scanning.py) -/

structure BskyPost where
  /-- Model of `record.text or post.text or ""`. -/
  text : String
  /-- Model of `record.createdAt or post.indexedAt`. -/
  createdAt : Option Int
  likeCount : Int
  repostCount : Int
  replyCount : Int
  /-- Model of `post.cid or post.uri or ""`. -/
  id : String
  /-- Model of `build_post_url(post)` (profile/rkey URL munging abstracted). -/
  url : String
deriving DecidableEq

/-- Post handling inside `scan_bsky_queries`: skip empty texts, classify
and append.  No `since_days` cutoff exists in this adapter: the post's age
is never inspected. -/
def bskyPostStep (raw_query : String)
    (acc : AdapterOutput) (p : BskyPost) : AdapterOutput :=
  if p.text = "" then acc
  else
    let groups := match_groups p.text
    if groups.isEmpty then acc
    else
      let key := idea_key p.text
      let pay := groups.contains "pay"
      pushMatch acc
        { source := "Bluesky", subreddit := "bsky:" ++ raw_query,
          itemType := "post", id := p.id, created := p.createdAt,
          score := p.likeCount + p.repostCount + p.replyCount,
          title := titleTrunc p.text, url := p.url, permalink := p.url,
          match_groups := String.intercalate ";" groups,
          willing_to_pay := if pay then "yes" else "no",
          idea_key := key, snippet := snippetOf p.text }
        key pay "Bluesky" ("bsky:" ++ raw_query) (titleTrunc p.text) p.url

/-- Model of `scan_bsky_queries` from src/app/bsky_scanning.py over the fetched
posts per query (`limit_per_query` and `base_url` are provider-side
request parameters). -/
def scan_bsky_queries (queries : List (String × List BskyPost)) : AdapterOutput :=
  let r := queries.foldl (fun acc q =>
    let posts := q.2
    let acc1 := { acc with fetched_total := acc.fetched_total + posts.length }
    posts.foldl (bskyPostStep q.1) acc1) emptyOutput
  { r with matched := r.rows.length }

/-! ### Mastodon (src/app/mastodon_scanning.py) -/

structure MastoStatus where
  /-- Model of `strip_html(status.content)` (tag removal and entity unescaping
  abstracted into the plain text). -/
  text : String
  /-- Model of `status.created_at`; `none` when absent (an unparsable string, which
  the code also lets through, is not modelled). -/
  created_at : Option Int
  favourites_count : Int
  reblogs_count : Int
  replies_count : Int
  id : String
  /-- Model of `status.url or status.uri or ""`. -/
  url : String
deriving DecidableEq

/-- Status handling inside `scan_mastodon_queries`: apply the client-side
cutoff when one is configured and the status carries a timestamp, skip
empty texts, classify and append. -/
def mastoStatusStep (raw_query : String) (cutoff : Option Int)
    (acc : AdapterOutput) (s : MastoStatus) : AdapterOutput :=
  let skip : Bool :=
    match cutoff, s.created_at with
    | some c, some t => t < c
    | _, _ => false
  if skip then acc
  else if s.text = "" then acc
  else
    let groups := match_groups s.text
    if groups.isEmpty then acc
    else
      let key := idea_key s.text
      let pay := groups.contains "pay"
      pushMatch acc
        { source := "Mastodon", subreddit := "mastodon:" ++ raw_query,
          itemType := "status", id := s.id, created := s.created_at,
          score := s.favourites_count + s.reblogs_count + s.replies_count,
          title := titleTrunc s.text, url := s.url, permalink := s.url,
          match_groups := String.intercalate ";" groups,
          willing_to_pay := if pay then "yes" else "no",
          idea_key := key, snippet := snippetOf s.text }
        key pay "Mastodon" ("mastodon:" ++ raw_query) (titleTrunc s.text) s.url

/-- Model of `scan_mastodon_queries` from src/app/mastodon_scanning.py over the
fetched statuses per query; the cutoff exists only when `since_days > 0`
(the guard `if since_days and since_days > 0`). -/
def scan_mastodon_queries (queries : List (String × List MastoStatus))
    (now : Int) (since_days : Int) : AdapterOutput :=
  let cutoff : Option Int :=
    if 0 < since_days then some (now - since_days * 86400) else none
  let r := queries.foldl (fun acc q =>
    let statuses := q.2
    let acc1 := { acc with fetched_total := acc.fetched_total + statuses.length }
    statuses.foldl (mastoStatusStep q.1 cutoff) acc1) emptyOutput
  { r with matched := r.rows.length }

/-! ### Adapter accumulation invariants -/

/-- Invariant carried through every adapter's accumulation: the summary
counts exactly the appended rows, every bucket satisfies
`pay_mentions ≤ mentions`, and every appended row satisfies `P`. -/
def OutInv (P : Row → Prop) (acc : AdapterOutput) : Prop :=
  sumMentions acc.summary = acc.rows.length ∧ InvSum acc.summary ∧
    ∀ r ∈ acc.rows, P r

/-- What C9 and C2 need of a Reddit row: tagged `"Reddit"` and created at
or after the cutoff. -/
def RedditRowOK (cutoff : Int) (r : Row) : Prop :=
  r.source = "Reddit" ∧ ∃ t, r.created = some t ∧ cutoff ≤ t

/-- What C9 and C2 need of a Mastodon row: tagged `"Mastodon"`, and when a
cutoff is configured, either the status carried no timestamp (the code
lets it through) or its timestamp is at or after the cutoff. -/
def MastoRowOK (cutoff : Option Int) (r : Row) : Prop :=
  r.source = "Mastodon" ∧ ∀ c, cutoff = some c →
    (r.created = none ∨ ∃ t, r.created = some t ∧ c ≤ t)

/-! ## Scan orchestrator (src/app/main.py, `run_scan_for_org`) -/

/-- Is `needle` a leading segment of `hay`? -/
def leadsWith : List Char → List Char → Bool
  | [], _ => true
  | _ :: _, [] => false
  | a :: as, b :: bs => a = b && leadsWith as bs

/-- Python's `needle in hay` on strings. -/
def containsStr (needle hay : String) : Bool :=
  hay.data.tails.any (fun t => leadsWith needle.data t)

/-- Model of `s.split(",")` on a character list (`cur` is the reversed current
segment). -/
def splitOnComma : List Char → List Char → List (List Char)
  | [], cur => [cur.reverse]
  | c :: cs, cur =>
    if c = ',' then cur.reverse :: splitOnComma cs []
    else splitOnComma cs (c :: cur)

/-- Model of `[part.strip() for part in s.split(",") if part.strip()]`. -/
def splitCommaStrip (s : String) : List String :=
  ((splitOnComma s.data []).map (fun w => String.mk (trimChars w))).filter
    (fun q => q ≠ "")

/-- The warning for a Reddit adapter exception. -/
def reddit_warning (msg : String) : String := "Reddit scan skipped: " ++ msg

/-- The warning for an X adapter exception, keyed on the exception text. -/
def x_warning (msg : String) : String :=
  if containsStr "X_CREDITS_DEPLETED" msg then
    "X credits depleted. Add credits in your X developer portal to fetch data."
  else if containsStr "X_AUTH_ERROR" msg || containsStr "401" msg then
    "X authentication failed. Check your bearer token and plan access."
  else "X scan skipped: " ++ msg

/-- The warning for a Bluesky adapter exception. -/
def bsky_warning (msg : String) : String :=
  if containsStr "BSKY_RATE_LIMIT" msg then
    "Bluesky rate limit reached. Try again later."
  else if containsStr "BSKY_AUTH_ERROR" msg then
    "Bluesky auth failed. Check your endpoint."
  else if containsStr "BSKY_FORBIDDEN" msg then
    "Bluesky request blocked (403). Check VPN, firewall, or base URL."
  else "Bluesky scan skipped: " ++ msg

/-- The warning for a Mastodon adapter exception. -/
def mastodon_warning (msg : String) : String :=
  if containsStr "MASTODON_RATE_LIMIT" msg then
    "Mastodon rate limit reached. Try again later."
  else if containsStr "MASTODON_AUTH_ERROR" msg then
    "Mastodon auth failed. Check your token or instance."
  else "Mastodon scan skipped: " ++ msg

/-- The configuration columns that gate which sources a scan attempts.
The remaining `scan_configs` columns (limits, windows, language, flags)
parametrize the fetches that are modelled by their outcomes. -/
structure ScanConfig where
  subreddits : String
  x_enabled : Bool
  x_queries : String
  bsky_enabled : Bool
  bsky_queries : String
  mastodon_enabled : Bool
  mastodon_queries : String
deriving DecidableEq

def redditAttempted (cfg : ScanConfig) : Prop :=
  splitCommaStrip cfg.subreddits ≠ []

instance (cfg : ScanConfig) : Decidable (redditAttempted cfg) :=
  inferInstanceAs (Decidable (_ ≠ _))

def xAttempted (cfg : ScanConfig) : Prop :=
  cfg.x_enabled = true ∧ splitCommaStrip cfg.x_queries ≠ []

def bskyAttempted (cfg : ScanConfig) : Prop :=
  cfg.bsky_enabled = true ∧ splitCommaStrip cfg.bsky_queries ≠ []

def mastodonAttempted (cfg : ScanConfig) : Prop :=
  cfg.mastodon_enabled = true ∧ splitCommaStrip cfg.mastodon_queries ≠ []

/-- The persisted scan snapshot (header counters, warnings, matched rows
and idea summaries; rate-limit metadata is presentation-only JSON and
omitted). -/
structure Scan where
  reddit_fetched : Nat
  reddit_matched : Nat
  x_fetched : Nat
  x_matched : Nat
  bsky_fetched : Nat
  bsky_matched : Nat
  mastodon_fetched : Nat
  mastodon_matched : Nat
  warnings : List String
  rows : List Row
  summary : Summary
deriving DecidableEq

/-- The accumulating state of `run_scan_for_org` across the four source
blocks. -/
structure ScanState where
  rows : List Row
  summary : Summary
  warnings : List String
deriving DecidableEq

/-- One source block of `run_scan_for_org`: when the source is attempted,
a successful adapter run extends the rows, merges the summary and yields
its statistics, and a raised exception only appends a warning; a source
that is not attempted leaves everything untouched. -/
def applySource (attempted : Bool) (res : Except String AdapterOutput)
    (mkWarning : String → String) (st : ScanState) : ScanState × Nat × Nat :=
  if attempted then
    match res with
    | Except.ok out =>
      ({ st with rows := st.rows ++ out.rows,
                 summary := merge_summaries st.summary out.summary },
        out.fetched_total, out.matched)
    | Except.error e =>
      ({ st with warnings := st.warnings ++ [mkWarning e] }, 0, 0)
  else (st, 0, 0)

/-- Model of `run_scan_for_org` from src/app/main.py, given the outcome of each
adapter invocation (Reddit's `load_reddit()` failure is subsumed into the
Reddit outcome): runs the four source blocks in program order and persists
one scan with the merged rows, summaries, warnings and per-source
counters. -/
def run_scan_for_org (cfg : ScanConfig)
    (rd xr bs ms : Except String AdapterOutput) : Scan :=
  let s0 : ScanState := { rows := [], summary := [], warnings := [] }
  let r1 := applySource (decide (redditAttempted cfg)) rd reddit_warning s0
  let r2 := applySource (cfg.x_enabled && decide (splitCommaStrip cfg.x_queries ≠ []))
    xr x_warning r1.1
  let r3 := applySource (cfg.bsky_enabled && decide (splitCommaStrip cfg.bsky_queries ≠ []))
    bs bsky_warning r2.1
  let r4 := applySource (cfg.mastodon_enabled && decide (splitCommaStrip cfg.mastodon_queries ≠ []))
    ms mastodon_warning r3.1
  { reddit_fetched := r1.2.1, reddit_matched := r1.2.2,
    x_fetched := r2.2.1, x_matched := r2.2.2,
    bsky_fetched := r3.2.1, bsky_matched := r3.2.2,
    mastodon_fetched := r4.2.1, mastodon_matched := r4.2.2,
    warnings := r4.1.warnings, rows := r4.1.rows, summary := r4.1.summary }

/-- Persisting a scan appends it to the organization's scan history. -/
def persistScans (db : List Scan) (s : Scan) : List Scan := db ++ [s]

/-- Rows a source block contributes. -/
def okRows (attempted : Bool) (res : Except String AdapterOutput) : List Row :=
  if attempted then
    match res with
    | Except.ok out => out.rows
    | Except.error _ => []
  else []

/-- Summary a source block contributes. -/
def okSum (attempted : Bool) (res : Except String AdapterOutput) : Summary :=
  if attempted then
    match res with
    | Except.ok out => out.summary
    | Except.error _ => []
  else []

/-- Warnings a source block contributes. -/
def errWarn (attempted : Bool) (res : Except String AdapterOutput)
    (mkWarning : String → String) : List String :=
  if attempted then
    match res with
    | Except.ok _ => []
    | Except.error e => [mkWarning e]
  else []

instance (cfg : ScanConfig) : Decidable (xAttempted cfg) :=
  inferInstanceAs (Decidable (_ ∧ _))

instance (cfg : ScanConfig) : Decidable (bskyAttempted cfg) :=
  inferInstanceAs (Decidable (_ ∧ _))

instance (cfg : ScanConfig) : Decidable (mastodonAttempted cfg) :=
  inferInstanceAs (Decidable (_ ∧ _))

/-- A configuration attempting Reddit and X only. -/
def witnessCfg : ScanConfig :=
  { subreddits := "Entrepreneur", x_enabled := true, x_queries := "app for",
    bsky_enabled := false, bsky_queries := "",
    mastodon_enabled := false, mastodon_queries := "" }

/-! ## C4 and C5: scan-level counting invariants -/

/-- Arguments of one `scan_subreddits` invocation. -/
structure RedditArgs where
  subs : List (String × List Submission)
  now : Int
  since_days : Int
  include_comments : Bool
  comment_limit : Int
  require_app_request : Bool

def runReddit (a : RedditArgs) : AdapterOutput :=
  scan_subreddits a.subs a.now a.since_days a.include_comments
    a.comment_limit a.require_app_request

/-- Arguments of one `scan_x_queries` invocation. -/
structure XArgs where
  queries : List (String × List Tweet)
  limit : Nat
  now : Int

def runX (a : XArgs) : AdapterOutput := scan_x_queries a.queries a.limit a.now

/-- Arguments of one `scan_bsky_queries` invocation. -/
structure BskyArgs where
  queries : List (String × List BskyPost)

def runBsky (a : BskyArgs) : AdapterOutput := scan_bsky_queries a.queries

/-- Arguments of one `scan_mastodon_queries` invocation. -/
structure MastoArgs where
  queries : List (String × List MastoStatus)
  now : Int
  since_days : Int

def runMasto (a : MastoArgs) : AdapterOutput :=
  scan_mastodon_queries a.queries a.now a.since_days

/-- An adapter invocation outcome: a run over the fetched data, or the
message of the exception it raised. -/
def adapterResult {α : Type} (run : α → AdapterOutput) (input : Option α)
    (err : String) : Except String AdapterOutput :=
  match input with
  | some a => Except.ok (run a)
  | none => Except.error err

/-- A Bluesky post from 1970 (epoch 0) whose text matches the compiled
`app_request` alternation (the doubled-backslash patterns require literal
backslashes in the text). -/
def oldBskyPost : BskyPost :=
  { text := "\\bneed an app\\b", createdAt := some 0, likeCount := 0,
    repostCount := 0, replyCount := 0, id := "cid1",
    url := "https://bsky.app/profile/u/post/1" }

/-- A submission whose title matches the compiled `app_request`
alternation, created exactly at the cutoff instant. -/
def witnessSubmission : Submission :=
  { created_utc := 1000, id := "i", score := 1,
    title := "\\bneed an app\\b", selftext := "", url := "u",
    permalink := "/p", comments := [] }

/-- The row `scan_subreddits` appends for `witnessSubmission`. -/
def witnessRedditRow : Row :=
  { source := "Reddit", subreddit := "s", itemType := "submission",
    id := "i", created := some 1000, score := 1,
    title := "\\bneed an app\\b", url := "u",
    permalink := "https://www.reddit.com/p",
    match_groups := "app_request", willing_to_pay := "no",
    idea_key := "bneed", snippet := "" }

/-! ## Trend engine (src/app/main.py, `enrich_summary` and helpers)

Python `round(x, n)` on these ratios is idealized as exact rational
arithmetic with round-half-to-even at `n` decimal digits (the binary
floating-point representation error below the last kept digit is not
modelled).  The `brief` string interpolates a float and is
presentation-only; it is omitted. -/

/-- Model of `s.split(";")` on a character list. -/
def splitOnSemi : List Char → List Char → List (List Char)
  | [], cur => [cur.reverse]
  | c :: cs, cur =>
    if c = ';' then cur.reverse :: splitOnSemi cs []
    else splitOnSemi cs (c :: cur)

/-- Model of `[part.strip() for part in s.split(";") if part.strip()]`. -/
def splitSemiStrip (s : String) : List String :=
  ((splitOnSemi s.data []).map (fun w => String.mk (trimChars w))).filter
    (fun q => q ≠ "")

def lowerStr (s : String) : String := String.mk (s.data.map Char.toLower)

/-- Python `s.startswith(p)`. -/
def startsWithStr (p s : String) : Bool := leadsWith p.data s.data

/-- Model of `PERSONA_MAP` from src/app/main.py. -/
def PERSONA_MAP : List (String × String) :=
  [ ("entrepreneur", "Founders"),
    ("startups", "Founders"),
    ("entrepreneurridealong", "Builders"),
    ("sideproject", "Indie builders"),
    ("saas", "SaaS founders"),
    ("smallbusiness", "Small business owners"),
    ("androidapps", "Android users"),
    ("iosapps", "iOS users") ]

/-- Model of `scores[persona] = scores.get(persona, 0) + 1` on the insertion-ordered
dict. -/
def bumpScore : List (String × Nat) → String → List (String × Nat)
  | [], p => [(p, 1)]
  | e :: rest, p =>
    if e.1 = p then (e.1, e.2 + 1) :: rest else e :: bumpScore rest p

/-- Head of `sorted(items, key=count, reverse=True)`: the stable descending
sort puts first the earliest-inserted entry among those with the maximal
count, so keep the current best and replace it only on a strictly greater
count. -/
def pickBest (e : String × Nat) : List (String × Nat) → String × Nat
  | [] => e
  | f :: rest => pickBest (if e.2 < f.2 then f else e) rest

/-- Model of `infer_persona` from src/app/main.py. -/
def infer_persona (subreddits_text : String) : String :=
  if subreddits_text = "" then "General"
  else
    let parts := splitSemiStrip subreddits_text
    let scores := parts.foldl (fun sc part =>
      let persona :=
        if startsWithStr "query:" part || startsWithStr "x:" part then
          "X audience"
        else if startsWithStr "bsky:" part then "Bluesky audience"
        else if startsWithStr "mastodon:" part then "Mastodon audience"
        else ((PERSONA_MAP.find? (fun e => e.1 == lowerStr part)).map
          Prod.snd).getD "General"
      bumpScore sc persona) []
    match scores with
    | [] => "General"
    | e :: rest => (pickBest e rest).1

/-- Round half to even to an integer (Python `round` semantics on exact
values). -/
def roundHalfEven (q : ℚ) : Int :=
  let f := ⌊q⌋
  if q - (f : ℚ) < (1 : ℚ)/2 then f
  else if (1 : ℚ)/2 < q - (f : ℚ) then f + 1
  else if f % 2 = 0 then f else f + 1

/-- Python `round(q, nd)` idealized over exact rationals. -/
def pyRound (q : ℚ) (nd : Nat) : ℚ :=
  ((roundHalfEven (q * (10 : ℚ) ^ nd) : ℤ) : ℚ) / (10 : ℚ) ^ nd

/-- Model of `build_problem_statement` from src/app/main.py. -/
def build_problem_statement (ik persona : String) : String :=
  if ik = "uncategorized" then
    persona ++ " report recurring workflow friction that currently lacks a simple tool."
  else persona ++ " struggle with " ++ ik ++ " and want a faster, simpler workflow."

/-- Model of `build_mvp_angle` from src/app/main.py. -/
def build_mvp_angle (ik persona : String) : String :=
  if ik = "uncategorized" then
    "Start with a focused capture + automation flow for " ++ lowerStr persona ++ "."
  else
    "Ship a lightweight tool that solves " ++ ik ++ " for " ++ lowerStr persona
      ++ " with a 5-minute setup."

/-- Model of `build_pricing_hypothesis` from src/app/main.py. -/
def build_pricing_hypothesis ( pay_ratio : ℚ) (mentions : Int) : String :=
  if 12 ≤ pay_ratio ∨ 15 ≤ mentions then
    "Test $29–$79/mo with a founder-friendly annual discount."
  else if 6 ≤ pay_ratio ∨ 8 ≤ mentions then
    "Test $12–$39/mo with a free trial and strong onboarding."
  else "Test freemium or a $9–$19 starter tier to validate demand."

/-- One `idea_summaries` row as `enrich_summary` reads it (the counters
are the stored integers; `row.get(..., 0) or 0` yields the stored value
for the NOT NULL columns). -/
structure SummaryRowIn where
  idea_key : String
  mentions : Int
  pay_mentions : Int
  sources : String
  subreddits : String
deriving DecidableEq

/-- One previous-scan row (`idea_key, mentions, pay_mentions`). -/
structure PrevRow where
  mentions : Int
  pay_mentions : Int
deriving DecidableEq

/-- Model of `previous_map.get(idea_key)`. -/
def lookupPrev (m : List (String × PrevRow)) (k : String) : Option PrevRow :=
  (m.find? (fun e => e.1 == k)).map Prod.snd

/-- The fields `enrich_summary` adds to a row. -/
structure EnrichedRow where
  idea_key : String
  mentions : Int
  pay_mentions : Int
  signal : String
  pay_ratio : ℚ
  mentions_per_day : ℚ
  persona : String
  delta_mentions : Option Int
  delta_pay : Option Int
  momentum : String
  problem_statement : String
  mvp_angle : String
  pricing_hypothesis : String

/-- The per-row body of `enrich_summary` from src/app/main.py. -/
def enrich_row (row : SummaryRowIn) (since_days : Int)
    (previous_map : Option (List (String × PrevRow))) : EnrichedRow :=
  let mentions := row.mentions
  let pay_mentions := row.pay_mentions
  let signal :=
    if 2 ≤ pay_mentions ∨ 12 ≤ mentions then "High"
    else if 1 ≤ pay_mentions ∨ 5 ≤ mentions then "Medium"
    else "Low"
  let pay_ratio :=
    if mentions ≠ 0 then pyRound ((pay_mentions : ℚ) / (mentions : ℚ) * 100) 1
    else 0
  let mentions_per_day :=
    if since_days ≠ 0 then pyRound ((mentions : ℚ) / (since_days : ℚ)) 2
    else 0
  let persona := infer_persona row.subreddits
  let dm : Option Int × Option Int × String :=
    match previous_map with
    | none => (none, none, "New")
    | some m =>
      match lookupPrev m row.idea_key with
      | none => (none, none, "New")
      | some p =>
        let d := mentions - p.mentions
        (some d, some (pay_mentions - p.pay_mentions),
          if 3 ≤ d then "Up" else if d ≤ -3 then "Down" else "Flat")
  { idea_key := row.idea_key, mentions := mentions,
    pay_mentions := pay_mentions, signal := signal, pay_ratio := pay_ratio,
    mentions_per_day := mentions_per_day, persona := persona,
    delta_mentions := dm.1, delta_pay := dm.2.1, momentum := dm.2.2,
    problem_statement := build_problem_statement row.idea_key persona,
    mvp_angle := build_mvp_angle row.idea_key persona,
    pricing_hypothesis := build_pricing_hypothesis pay_ratio mentions }

/-- Model of `enrich_summary` from src/app/main.py. -/
def enrich_summary (rows : List SummaryRowIn) (since_days : Int)
    (previous_map : Option (List (String × PrevRow))) : List EnrichedRow :=
  rows.map (fun r => enrich_row r since_days previous_map)

/-! ## Scheduler (src/app/main.py, `run_due_scans`)

One tick over the `schedules` table.  `success org` models whether
`run_scan_for_org(org)` returned or raised (the `except: continue` around
it).  The due test `delta_hours < interval` divides exact seconds by 3600;
over exact arithmetic it is equivalent to `now - last < interval * 3600`,
which is how it is phrased on integer seconds.  An empty `last_run_utc`
string is falsy in Python and is modelled as `none`. -/

structure Schedule where
  org_id : Nat
  interval_hours : Int
  last_run_utc : Option Int
deriving DecidableEq

structure TickResult where
  org_id : Nat
  invoked : Bool
  last_run_utc : Option Int
deriving DecidableEq

/-- One schedule's handling inside the `run_due_scans` loop: skip
non-positive intervals, skip when the last run is too recent, otherwise
invoke the orchestrator and update `last_run_utc` only on success. -/
def tickOne (now : Int) (success : Nat → Bool) (s : Schedule) : TickResult :=
  if s.interval_hours ≤ 0 then
    { org_id := s.org_id, invoked := false, last_run_utc := s.last_run_utc }
  else
    match s.last_run_utc with
    | some t =>
      if now - t < s.interval_hours * 3600 then
        { org_id := s.org_id, invoked := false, last_run_utc := s.last_run_utc }
      else if success s.org_id then
        { org_id := s.org_id, invoked := true, last_run_utc := some now }
      else
        { org_id := s.org_id, invoked := true, last_run_utc := s.last_run_utc }
    | none =>
      if success s.org_id then
        { org_id := s.org_id, invoked := true, last_run_utc := some now }
      else
        { org_id := s.org_id, invoked := true, last_run_utc := s.last_run_utc }

/-- Model of `run_due_scans` from src/app/main.py: every schedule row is processed,
each independently of the others (an exception for one organization is
caught and the loop continues). -/
def run_due_scans (now : Int) (success : Nat → Bool)
    (schedules : List Schedule) : List TickResult :=
  schedules.map (tickOne now success)

/-! ## Theorems -/

/-- Every pattern string in `PATTERN_GROUPS` parses into the supported
fragment (no pattern was dropped by `filterMap`). -/
theorem compile_patterns_total :
    compile_patterns.map (fun g => g.2.length)
      = PATTERN_GROUPS.map (fun g => g.2.length) := by decide

theorem mem_of_mem_dedupFirstAux :
    ∀ (fuel : Nat) (l : List String) (v : String),
      v ∈ dedupFirstAux fuel l → v ∈ l := by
  intro fuel
  induction fuel with
  | zero => intro l v h; simp [dedupFirstAux] at h
  | succ fuel ih =>
    intro l v h
    match l with
    | [] => simp [dedupFirstAux] at h
    | w :: ws =>
      simp only [dedupFirstAux, List.mem_cons] at h
      rcases h with h1 | h2
      · exact h1 ▸ List.mem_cons_self _ _
      · exact List.mem_cons_of_mem _ (List.mem_of_mem_filter (ih _ _ h2))

theorem mem_of_mem_dedupFirst (l : List String) (v : String)
    (h : v ∈ dedupFirst l) : v ∈ l :=
  mem_of_mem_dedupFirstAux l.length l v h

theorem nodup_dedupFirstAux :
    ∀ (fuel : Nat) (l : List String), (dedupFirstAux fuel l).Nodup := by
  intro fuel
  induction fuel with
  | zero => intro l; simp [dedupFirstAux]
  | succ fuel ih =>
    intro l
    match l with
    | [] => simp [dedupFirstAux]
    | w :: ws =>
      simp only [dedupFirstAux, List.nodup_cons]
      refine ⟨fun hmem => ?_, ih _⟩
      have := List.mem_filter.mp (mem_of_mem_dedupFirstAux _ _ _ hmem)
      simp at this

theorem nodup_dedupFirst (l : List String) : (dedupFirst l).Nodup :=
  nodup_dedupFirstAux l.length l

/-- C3: `idea_key` lower-cases the text, extracts alphabetic tokens of
length ≥ 4, drops the stop words, and joins the 6 most frequent distinct
tokens — descending frequency, ties broken by first-occurrence order — with
single spaces; `"uncategorized"` when no token survives.  The second
conjunct states this via the spec-side ordering `specPrec`: any enumeration
of the distinct surviving tokens that is ordered by descending frequency
with the first-occurrence tie-break yields the key (being a pure function
of `text`, `idea_key` is deterministic by construction). -/
theorem idea_key_characterization (text : String) :
    (filteredWords text = [] → idea_key text = "uncategorized") ∧
    (∀ order : List String,
      order.Perm (dedupFirst (filteredWords text)) →
      order.Pairwise (specPrec (filteredWords text)) →
      filteredWords text ≠ [] →
      idea_key text = String.intercalate " " (order.take 6)) := by
  constructor
  · intro h
    simp [idea_key, h]
  · intro order hperm hpair hne
    have hsorted :=
      List.sorted_insertionSort (mostCommonR (filteredWords text))
        (dedupFirst (filteredWords text))
    have hpermS :=
      List.perm_insertionSort (mostCommonR (filteredWords text))
        (dedupFirst (filteredWords text))
    have hndS := hpermS.nodup_iff.mpr (nodup_dedupFirst (filteredWords text))
    have hmemW : ∀ x, x ∈ List.insertionSort (mostCommonR (filteredWords text))
        (dedupFirst (filteredWords text)) → x ∈ filteredWords text := by
      intro x hx
      exact mem_of_mem_dedupFirst _ _ (hpermS.subset hx)
    have hstrict : (List.insertionSort (mostCommonR (filteredWords text))
        (dedupFirst (filteredWords text))).Pairwise (specPrec (filteredWords text)) := by
      have hand := List.Pairwise.and hsorted hndS
      refine hand.imp_of_mem ?_
      intro a b ha hb hab
      rcases hab with ⟨hr, hne2⟩
      rcases hr with hlt | ⟨heq, hle⟩
      · exact Or.inl hlt
      · refine Or.inr ⟨heq, lt_of_le_of_ne hle ?_⟩
        intro hidx
        exact hne2 ((List.indexOf_inj (hmemW a ha) (hmemW b hb)).mp hidx)
    haveI : IsAntisymm String (specPrec (filteredWords text)) := ⟨by
      intro a b hab hba
      exfalso
      rcases hab with h1 | ⟨e1, l1⟩ <;> rcases hba with h2 | ⟨e2, l2⟩
      · exact Nat.lt_asymm h1 h2
      · exact Nat.lt_irrefl _ (e2 ▸ h1)
      · exact Nat.lt_irrefl _ (e1 ▸ h2)
      · exact Nat.lt_asymm l1 l2⟩
    have horder : order = List.insertionSort (mostCommonR (filteredWords text))
        (dedupFirst (filteredWords text)) :=
      List.eq_of_perm_of_sorted (hperm.trans hpermS.symm) hpair hstrict
    have hemp : (filteredWords text).isEmpty = false := by
      cases h : filteredWords text with
      | nil => exact absurd h hne
      | cons a l => simp
    rw [idea_key]
    simp only [hemp, Bool.false_eq_true, if_false, horder]

/-- Witness for C3 at a concrete input with a frequency tie:
`alpha` and `beta` each occur twice (tie broken by first occurrence),
`gamma` once. -/
theorem idea_key_characterization_witness :
    idea_key "alpha beta alpha beta gamma" = "alpha beta gamma" :=
  (idea_key_characterization "alpha beta alpha beta gamma").2
    ["alpha", "beta", "gamma"] (by decide) (by decide) (by decide)

theorem getBucket_nil (j : String) : getBucket [] j = none := rfl

theorem getBucket_cons (e : String × Bucket) (rest : Summary) (j : String) :
    getBucket (e :: rest) j = if e.1 = j then some e.2 else getBucket rest j := by
  by_cases h : e.1 = j
  · rw [getBucket, List.find?_cons_of_pos _ (by simp [h]), if_pos h]
  · rw [getBucket, List.find?_cons_of_neg _ (by simp [h]), if_neg h]
    rfl

theorem getBucket_setBucket (s : Summary) (k j : String) (b : Bucket) :
    getBucket (setBucket s k b) j = if k = j then some b else getBucket s j := by
  induction s with
  | nil =>
    by_cases h : k = j <;> simp [setBucket, getBucket_cons, getBucket_nil, h]
  | cons e rest ih =>
    by_cases he : e.1 = k
    · rw [setBucket, if_pos he, getBucket_cons, getBucket_cons]
      by_cases h : k = j
      · simp [h]
      · have hne : ¬ e.1 = j := by rw [he]; exact h
        simp [h, hne]
    · rw [setBucket, if_neg he, getBucket_cons, getBucket_cons]
      by_cases h2 : e.1 = j
      · have hkj : ¬ k = j := fun hc => he (h2.trans hc.symm)
        simp [h2, hkj]
      · simp [h2, ih]

theorem sumMentions_nil : sumMentions [] = 0 := rfl

theorem sumMentions_cons (e : String × Bucket) (rest : Summary) :
    sumMentions (e :: rest) = e.2.mentions + sumMentions rest := by
  simp [sumMentions]

theorem sumMentions_setBucket_none (s : Summary) (k : String) (b : Bucket)
    (h : getBucket s k = none) :
    sumMentions (setBucket s k b) = sumMentions s + b.mentions := by
  induction s with
  | nil => simp [setBucket, sumMentions_cons, sumMentions_nil]
  | cons e rest ih =>
    rw [getBucket_cons] at h
    by_cases he : e.1 = k
    · simp [he] at h
    · rw [if_neg he] at h
      rw [setBucket, if_neg he, sumMentions_cons, sumMentions_cons, ih h]
      omega

theorem sumMentions_setBucket_some (s : Summary) (k : String) (b old : Bucket)
    (h : getBucket s k = some old) :
    sumMentions (setBucket s k b) + old.mentions = sumMentions s + b.mentions := by
  induction s with
  | nil => simp [getBucket_nil] at h
  | cons e rest ih =>
    rw [getBucket_cons] at h
    by_cases he : e.1 = k
    · rw [if_pos he] at h
      rw [setBucket, if_pos he, sumMentions_cons, sumMentions_cons]
      have hold : old = e.2 := by injection h; simp_all
      have hkb : ((k, b) : String × Bucket).2.mentions = b.mentions := rfl
      rw [hold, hkb]
      omega
    · rw [if_neg he] at h
      rw [setBucket, if_neg he, sumMentions_cons, sumMentions_cons]
      have := ih h
      omega

theorem sumMentions_setBucket_upd (t : Summary) (k : String) (b2 : Bucket)
    (n : Nat)
    (h2 : b2.mentions = ((getBucket t k).getD new_summary_bucket).mentions + n) :
    sumMentions (setBucket t k b2) = sumMentions t + n := by
  cases hb : getBucket t k with
  | none =>
    rw [sumMentions_setBucket_none t k b2 hb, h2, hb]
    simp [new_summary_bucket]
  | some old =>
    have h1 := sumMentions_setBucket_some t k b2 old hb
    rw [hb] at h2
    simp only [Option.getD_some] at h2
    omega

theorem mergeBucket_mentions (b d : Bucket) :
    (mergeBucket b d).mentions = b.mentions + d.mentions := by
  by_cases hs : (b.sample_title = "" ∧ d.sample_title ≠ "") <;> simp [mergeBucket, hs]

theorem mergeBucket_pay (b d : Bucket) :
    (mergeBucket b d).pay_mentions = b.pay_mentions + d.pay_mentions := by
  by_cases hs : (b.sample_title = "" ∧ d.sample_title ≠ "") <;> simp [mergeBucket, hs]

theorem mergeBucket_sources (b d : Bucket) :
    (mergeBucket b d).sources = b.sources ∪ d.sources := by
  by_cases hs : (b.sample_title = "" ∧ d.sample_title ≠ "") <;> simp [mergeBucket, hs]

theorem mergeBucket_subreddits (b d : Bucket) :
    (mergeBucket b d).subreddits = b.subreddits ∪ d.subreddits := by
  by_cases hs : (b.sample_title = "" ∧ d.sample_title ≠ "") <;> simp [mergeBucket, hs]

theorem sumMentions_mergeStep (t : Summary) (e : String × Bucket) :
    sumMentions (mergeStep t e) = sumMentions t + e.2.mentions := by
  rw [mergeStep]
  exact sumMentions_setBucket_upd t e.1 _ _ (mergeBucket_mentions _ _)

theorem sumMentions_merge (t inc : Summary) :
    sumMentions (merge_summaries t inc) = sumMentions t + sumMentions inc := by
  induction inc generalizing t with
  | nil => simp [merge_summaries, sumMentions_nil]
  | cons e rest ih =>
    simp only [merge_summaries, List.foldl_cons] at ih ⊢
    rw [ih (mergeStep t e), sumMentions_mergeStep, sumMentions_cons]
    omega

theorem mem_setBucket (s : Summary) (k : String) (b : Bucket) :
    ∀ e ∈ setBucket s k b, e = (k, b) ∨ e ∈ s := by
  induction s with
  | nil => intro e he; simp [setBucket] at he; simp [he]
  | cons f rest ih =>
    intro e he
    by_cases hf : f.1 = k
    · rw [setBucket, if_pos hf] at he
      rcases List.mem_cons.mp he with h | h
      · exact Or.inl h
      · exact Or.inr (List.mem_cons_of_mem _ h)
    · rw [setBucket, if_neg hf] at he
      rcases List.mem_cons.mp he with h | h
      · exact Or.inr (h ▸ List.mem_cons_self _ _)
      · rcases ih e h with h2 | h2
        · exact Or.inl h2
        · exact Or.inr (List.mem_cons_of_mem _ h2)

theorem getBucket_inv (s : Summary) (h : InvSum s) (k : String) (b : Bucket)
    (hb : getBucket s k = some b) : b.pay_mentions ≤ b.mentions := by
  rw [getBucket] at hb
  cases hf : s.find? (fun e => e.1 == k) with
  | none => rw [hf] at hb; cases hb
  | some e =>
    rw [hf] at hb
    injection hb with hb2
    exact hb2 ▸ h e (List.mem_of_find?_eq_some hf)

theorem getD_bucket_inv (s : Summary) (h : InvSum s) (k : String) :
    ((getBucket s k).getD new_summary_bucket).pay_mentions
      ≤ ((getBucket s k).getD new_summary_bucket).mentions := by
  cases hb : getBucket s k with
  | none => simp [new_summary_bucket]
  | some b => simpa using getBucket_inv s h k b hb

theorem InvSum_setBucket (s : Summary) (k : String) (b : Bucket)
    (h : InvSum s) (hb : b.pay_mentions ≤ b.mentions) :
    InvSum (setBucket s k b) := by
  intro e he
  rcases mem_setBucket s k b e he with h2 | h2
  · rw [h2]; exact hb
  · exact h e h2

theorem InvSum_mergeStep (t : Summary) (e : String × Bucket)
    (ht : InvSum t) (he : e.2.pay_mentions ≤ e.2.mentions) :
    InvSum (mergeStep t e) := by
  rw [mergeStep]
  apply InvSum_setBucket _ _ _ ht
  rw [mergeBucket_mentions, mergeBucket_pay]
  exact Nat.add_le_add (getD_bucket_inv t ht e.1) he

theorem InvSum_merge (t inc : Summary) (ht : InvSum t) (hinc : InvSum inc) :
    InvSum (merge_summaries t inc) := by
  induction inc generalizing t with
  | nil => exact ht
  | cons e rest ih =>
    simp only [merge_summaries, List.foldl_cons] at ih ⊢
    exact ih (mergeStep t e)
      (InvSum_mergeStep t e ht (hinc e (List.mem_cons_self _ _)))
      (fun f hf => hinc f (List.mem_cons_of_mem _ hf))

theorem sumMentions_addToSummary (s : Summary) (key : String) (pay : Bool)
    (src lbl title url : String) :
    sumMentions (addToSummary s key pay src lbl title url) = sumMentions s + 1 := by
  simp only [addToSummary]
  apply sumMentions_setBucket_upd
  by_cases hs : ((getBucket s key).getD new_summary_bucket).sample_title = "" <;>
    simp [hs]

theorem InvSum_addToSummary (s : Summary) (key : String) (pay : Bool)
    (src lbl title url : String) (h : InvSum s) :
    InvSum (addToSummary s key pay src lbl title url) := by
  simp only [addToSummary]
  apply InvSum_setBucket _ _ _ h
  have := getD_bucket_inv s h key
  by_cases hs : ((getBucket s key).getD new_summary_bucket).sample_title = "" <;>
    cases pay <;> simp [hs] <;> omega

theorem mAt_getD (s : Summary) (k : String) :
    mAt s k = ((getBucket s k).getD new_summary_bucket).mentions := by
  cases h : getBucket s k <;> simp [mAt, h, new_summary_bucket]

theorem pAt_getD (s : Summary) (k : String) :
    pAt s k = ((getBucket s k).getD new_summary_bucket).pay_mentions := by
  cases h : getBucket s k <;> simp [pAt, h, new_summary_bucket]

theorem srcAt_getD (s : Summary) (k : String) :
    srcAt s k = ((getBucket s k).getD new_summary_bucket).sources := by
  cases h : getBucket s k <;> simp [srcAt, h, new_summary_bucket]

theorem subAt_getD (s : Summary) (k : String) :
    subAt s k = ((getBucket s k).getD new_summary_bucket).subreddits := by
  cases h : getBucket s k <;> simp [subAt, h, new_summary_bucket]

theorem getBucket_mergeStep (t : Summary) (e : String × Bucket) (k : String) :
    getBucket (mergeStep t e) k =
      if e.1 = k then
        some (mergeBucket ((getBucket t k).getD new_summary_bucket) e.2)
      else getBucket t k := by
  rw [mergeStep, getBucket_setBucket]
  by_cases h : e.1 = k
  · rw [if_pos h, if_pos h, h]
  · rw [if_neg h, if_neg h]

theorem mAt_mergeStep (t : Summary) (e : String × Bucket) (k : String) :
    mAt (mergeStep t e) k = mAt t k + (if e.1 = k then e.2.mentions else 0) := by
  by_cases h : e.1 = k
  · rw [mAt, getBucket_mergeStep, if_pos h, if_pos h]
    simp [mergeBucket_mentions, mAt_getD]
  · rw [mAt, getBucket_mergeStep, if_neg h, if_neg h, ← mAt]
    omega

theorem pAt_mergeStep (t : Summary) (e : String × Bucket) (k : String) :
    pAt (mergeStep t e) k = pAt t k + (if e.1 = k then e.2.pay_mentions else 0) := by
  by_cases h : e.1 = k
  · rw [pAt, getBucket_mergeStep, if_pos h, if_pos h]
    simp [mergeBucket_pay, pAt_getD]
  · rw [pAt, getBucket_mergeStep, if_neg h, if_neg h, ← pAt]
    omega

theorem srcAt_mergeStep (t : Summary) (e : String × Bucket) (k : String) :
    srcAt (mergeStep t e) k
      = srcAt t k ∪ (if e.1 = k then e.2.sources else ∅) := by
  by_cases h : e.1 = k
  · rw [srcAt, getBucket_mergeStep, if_pos h, if_pos h]
    simp [mergeBucket_sources, srcAt_getD]
  · rw [srcAt, getBucket_mergeStep, if_neg h, if_neg h, ← srcAt]
    simp [h]

theorem subAt_mergeStep (t : Summary) (e : String × Bucket) (k : String) :
    subAt (mergeStep t e) k
      = subAt t k ∪ (if e.1 = k then e.2.subreddits else ∅) := by
  by_cases h : e.1 = k
  · rw [subAt, getBucket_mergeStep, if_pos h, if_pos h]
    simp [mergeBucket_subreddits, subAt_getD]
  · rw [subAt, getBucket_mergeStep, if_neg h, if_neg h, ← subAt]
    simp [h]

theorem presentAt_mergeStep (t : Summary) (e : String × Bucket) (k : String) :
    presentAt (mergeStep t e) k = (presentAt t k || (e.1 == k)) := by
  by_cases h : e.1 = k
  · rw [presentAt, getBucket_mergeStep, if_pos h]
    simp [h]
  · rw [presentAt, getBucket_mergeStep, if_neg h, ← presentAt]
    simp [h]

theorem mAt_merge (t inc : Summary) (k : String) :
    mAt (merge_summaries t inc) k = mAt t k + incM inc k := by
  induction inc generalizing t with
  | nil => simp [merge_summaries, incM]
  | cons e rest ih =>
    simp only [merge_summaries, List.foldl_cons] at ih ⊢
    rw [ih (mergeStep t e), mAt_mergeStep]
    have : incM (e :: rest) k = (if e.1 = k then e.2.mentions else 0) + incM rest k := by
      by_cases h : e.1 = k <;> simp [incM, List.filter_cons, h]
    omega

theorem pAt_merge (t inc : Summary) (k : String) :
    pAt (merge_summaries t inc) k = pAt t k + incP inc k := by
  induction inc generalizing t with
  | nil => simp [merge_summaries, incP]
  | cons e rest ih =>
    simp only [merge_summaries, List.foldl_cons] at ih ⊢
    rw [ih (mergeStep t e), pAt_mergeStep]
    have : incP (e :: rest) k = (if e.1 = k then e.2.pay_mentions else 0) + incP rest k := by
      by_cases h : e.1 = k <;> simp [incP, List.filter_cons, h]
    omega

theorem srcAt_merge (t inc : Summary) (k : String) :
    srcAt (merge_summaries t inc) k = srcAt t k ∪ incSrc inc k := by
  induction inc generalizing t with
  | nil => simp [merge_summaries, incSrc]
  | cons e rest ih =>
    simp only [merge_summaries, List.foldl_cons] at ih ⊢
    rw [ih (mergeStep t e), srcAt_mergeStep]
    have : incSrc (e :: rest) k
        = (if e.1 = k then e.2.sources else ∅) ∪ incSrc rest k := by
      by_cases h : e.1 = k <;> simp [incSrc, List.filter_cons, h]
    rw [this, Finset.union_assoc]

theorem subAt_merge (t inc : Summary) (k : String) :
    subAt (merge_summaries t inc) k = subAt t k ∪ incSub inc k := by
  induction inc generalizing t with
  | nil => simp [merge_summaries, incSub]
  | cons e rest ih =>
    simp only [merge_summaries, List.foldl_cons] at ih ⊢
    rw [ih (mergeStep t e), subAt_mergeStep]
    have : incSub (e :: rest) k
        = (if e.1 = k then e.2.subreddits else ∅) ∪ incSub rest k := by
      by_cases h : e.1 = k <;> simp [incSub, List.filter_cons, h]
    rw [this, Finset.union_assoc]

theorem presentAt_merge (t inc : Summary) (k : String) :
    presentAt (merge_summaries t inc) k
      = (presentAt t k || inc.any (fun e => e.1 == k)) := by
  induction inc generalizing t with
  | nil => simp [merge_summaries]
  | cons e rest ih =>
    simp only [merge_summaries, List.foldl_cons] at ih ⊢
    rw [ih (mergeStep t e), presentAt_mergeStep]
    simp [Bool.or_assoc]

/-- C10: `merge_summaries` is order-insensitive on the aggregate fields:
merging `A` then `B` into an empty target agrees, at every idea key, with
merging `B` then `A` on key presence, `mentions`, `pay_mentions`, the
`sources` set and the `subreddits` set (only the first-non-empty-sample
fields depend on the merge order). -/
theorem merge_summaries_order_insensitive (A B : Summary) (k : String) :
    presentAt (merge_summaries (merge_summaries [] A) B) k
      = presentAt (merge_summaries (merge_summaries [] B) A) k ∧
    mAt (merge_summaries (merge_summaries [] A) B) k
      = mAt (merge_summaries (merge_summaries [] B) A) k ∧
    pAt (merge_summaries (merge_summaries [] A) B) k
      = pAt (merge_summaries (merge_summaries [] B) A) k ∧
    srcAt (merge_summaries (merge_summaries [] A) B) k
      = srcAt (merge_summaries (merge_summaries [] B) A) k ∧
    subAt (merge_summaries (merge_summaries [] A) B) k
      = subAt (merge_summaries (merge_summaries [] B) A) k := by
  refine ⟨?_, ?_, ?_, ?_, ?_⟩
  · rw [presentAt_merge, presentAt_merge, presentAt_merge, presentAt_merge]
    simp [presentAt, getBucket_nil, Bool.or_comm]
  · rw [mAt_merge, mAt_merge, mAt_merge, mAt_merge]
    simp [mAt, getBucket_nil]
    omega
  · rw [pAt_merge, pAt_merge, pAt_merge, pAt_merge]
    simp [pAt, getBucket_nil]
    omega
  · rw [srcAt_merge, srcAt_merge, srcAt_merge, srcAt_merge]
    simp [srcAt, getBucket_nil, Finset.union_comm]
  · rw [subAt_merge, subAt_merge, subAt_merge, subAt_merge]
    simp [subAt, getBucket_nil, Finset.union_comm]

theorem OutInv_empty (P : Row → Prop) : OutInv P emptyOutput :=
  ⟨rfl, by intro e he; simp [emptyOutput] at he,
    by intro r hr; simp [emptyOutput] at hr⟩

theorem OutInv_congr (P : Row → Prop) (acc acc2 : AdapterOutput)
    (hr : acc2.rows = acc.rows) (hs : acc2.summary = acc.summary)
    (h : OutInv P acc) : OutInv P acc2 := by
  rw [OutInv, hr, hs]
  exact h

theorem OutInv_pushMatch (P : Row → Prop) (acc : AdapterOutput) (row : Row)
    (key : String) (pay : Bool) (src lbl st su : String)
    (h : OutInv P acc) (hrow : P row) :
    OutInv P (pushMatch acc row key pay src lbl st su) := by
  obtain ⟨h1, h2, h3⟩ := h
  refine ⟨?_, ?_, ?_⟩
  · show sumMentions (addToSummary acc.summary key pay src lbl st su)
      = (acc.rows ++ [row]).length
    rw [sumMentions_addToSummary, List.length_append, h1]
    rfl
  · exact InvSum_addToSummary _ _ _ _ _ _ _ h2
  · intro r hr
    rcases List.mem_append.mp hr with hm | hm
    · exact h3 r hm
    · rw [List.mem_singleton.mp hm]
      exact hrow

theorem foldl_preserve {α β : Type} (P : α → Prop) (step : α → β → α)
    (hstep : ∀ a b, P a → P (step a b)) :
    ∀ (l : List β) (a : α), P a → P (l.foldl step a) := by
  intro l
  induction l with
  | nil => intro a h; exact h
  | cons b rest ih => intro a h; exact ih _ (hstep a b h)

theorem redditCommentStep_inv (name st su : String) (rar : Bool) (cutoff : Int)
    (acc : AdapterOutput) (c : RedditComment)
    (h : OutInv (RedditRowOK cutoff) acc) :
    OutInv (RedditRowOK cutoff) (redditCommentStep name st su rar cutoff acc c) := by
  simp only [redditCommentStep]
  split_ifs with h1 h2 h3 h4 <;>
  first
    | exact h
    | exact OutInv_congr _ _ _ rfl rfl h
    | exact OutInv_pushMatch _ _ _ _ _ _ _ _ _
        (OutInv_congr _ _ _ rfl rfl h) ⟨rfl, c.created_utc, rfl, not_lt.mp h1⟩

theorem redditSubmissionStep_inv (name : String) (cutoff : Int)
    (ic : Bool) (cl : Int) (rar : Bool)
    (acc : AdapterOutput) (sub : Submission)
    (h : OutInv (RedditRowOK cutoff) acc) :
    OutInv (RedditRowOK cutoff)
      (redditSubmissionStep name cutoff ic cl rar acc sub) := by
  simp only [redditSubmissionStep]
  split_ifs with h1 h2 h3 h4 h5 h6 h7 h8 h9 <;>
  first
    | exact h
    | exact OutInv_congr _ _ _ rfl rfl h
    | exact foldl_preserve _ _
        (fun a b hp => redditCommentStep_inv name sub.title sub.url rar cutoff a b hp)
        _ _ (OutInv_congr _ _ _ rfl rfl h)
    | exact OutInv_pushMatch _ _ _ _ _ _ _ _ _
        (OutInv_congr _ _ _ rfl rfl h)
        ⟨rfl, sub.created_utc, rfl, not_lt.mp h1⟩
    | exact foldl_preserve _ _
        (fun a b hp => redditCommentStep_inv name sub.title sub.url rar cutoff a b hp)
        _ _ (OutInv_pushMatch _ _ _ _ _ _ _ _ _
          (OutInv_congr _ _ _ rfl rfl h)
          ⟨rfl, sub.created_utc, rfl, not_lt.mp h1⟩)

theorem scan_subreddits_inv (subs : List (String × List Submission)) (now : Int)
    (since_days : Int) (ic : Bool) (cl : Int) (rar : Bool) :
    OutInv (RedditRowOK (now - since_days * 86400))
      (scan_subreddits subs now since_days ic cl rar) := by
  simp only [scan_subreddits]
  refine foldl_preserve _ _ ?_ _ _ (OutInv_empty _)
  intro a p hp
  refine foldl_preserve _ _ ?_ _ _ hp
  intro a2 s hp2
  exact redditSubmissionStep_inv p.1 _ ic cl rar a2 s hp2

theorem xTweetStep_inv (q : String) (now : Int) (acc : AdapterOutput) (tw : Tweet)
    (h : OutInv (fun r => r.source = "X") acc) :
    OutInv (fun r => r.source = "X") (xTweetStep q now acc tw) := by
  simp only [xTweetStep]
  split_ifs <;>
  first
    | exact h
    | exact OutInv_pushMatch _ _ _ _ _ _ _ _ _ h rfl

theorem scan_x_queries_inv (queries : List (String × List Tweet))
    (limit : Nat) (now : Int) :
    OutInv (fun r => r.source = "X") (scan_x_queries queries limit now) := by
  simp only [scan_x_queries]
  refine OutInv_congr _ _ _ rfl rfl ?_
  refine foldl_preserve _ _ ?_ _ _ (OutInv_empty _)
  intro a q hp
  refine foldl_preserve _ _ ?_ _ _ (OutInv_congr _ _ _ rfl rfl hp)
  intro a2 tw hp2
  exact xTweetStep_inv q.1 now a2 tw hp2

theorem bskyPostStep_inv (q : String) (acc : AdapterOutput) (p : BskyPost)
    (h : OutInv (fun r => r.source = "Bluesky") acc) :
    OutInv (fun r => r.source = "Bluesky") (bskyPostStep q acc p) := by
  simp only [bskyPostStep]
  split_ifs <;>
  first
    | exact h
    | exact OutInv_pushMatch _ _ _ _ _ _ _ _ _ h rfl

theorem scan_bsky_queries_inv (queries : List (String × List BskyPost)) :
    OutInv (fun r => r.source = "Bluesky") (scan_bsky_queries queries) := by
  simp only [scan_bsky_queries]
  refine OutInv_congr _ _ _ rfl rfl ?_
  refine foldl_preserve _ _ ?_ _ _ (OutInv_empty _)
  intro a q hp
  refine foldl_preserve _ _ ?_ _ _ (OutInv_congr _ _ _ rfl rfl hp)
  intro a2 p hp2
  exact bskyPostStep_inv q.1 a2 p hp2

theorem mastoStatusStep_inv (q : String) (cutoff : Option Int)
    (acc : AdapterOutput) (s : MastoStatus)
    (h : OutInv (MastoRowOK cutoff) acc) :
    OutInv (MastoRowOK cutoff) (mastoStatusStep q cutoff acc s) := by
  simp only [mastoStatusStep]
  split_ifs with h1 h2 h3 h4 <;>
  first
    | exact h
    | exact OutInv_pushMatch _ _ _ _ _ _ _ _ _ h (by
        refine ⟨rfl, ?_⟩
        intro c hc
        cases hcr : s.created_at with
        | none => exact Or.inl rfl
        | some t =>
          refine Or.inr ⟨t, rfl, ?_⟩
          rw [hc, hcr] at h1
          simpa using h1)

theorem scan_mastodon_queries_inv (queries : List (String × List MastoStatus))
    (now : Int) (since_days : Int) :
    OutInv (MastoRowOK (if 0 < since_days
        then some (now - since_days * 86400) else none))
      (scan_mastodon_queries queries now since_days) := by
  simp only [scan_mastodon_queries]
  refine OutInv_congr _ _ _ rfl rfl ?_
  refine foldl_preserve _ _ ?_ _ _ (OutInv_empty _)
  intro a q hp
  refine foldl_preserve _ _ ?_ _ _ (OutInv_congr _ _ _ rfl rfl hp)
  intro a2 s hp2
  exact mastoStatusStep_inv q.1 _ a2 s hp2

theorem applySource_fst (attempted : Bool) (res : Except String AdapterOutput)
    (w : String → String) (st : ScanState) :
    (applySource attempted res w st).1 =
      { rows := st.rows ++ okRows attempted res,
        summary := merge_summaries st.summary (okSum attempted res),
        warnings := st.warnings ++ errWarn attempted res w } := by
  cases attempted <;> cases res <;>
    simp [applySource, okRows, okSum, errWarn, merge_summaries]

theorem run_scan_rows (cfg : ScanConfig) (rd xr bs ms : Except String AdapterOutput) :
    (run_scan_for_org cfg rd xr bs ms).rows =
      okRows (decide (redditAttempted cfg)) rd
        ++ (okRows (cfg.x_enabled && decide (splitCommaStrip cfg.x_queries ≠ [])) xr
        ++ (okRows (cfg.bsky_enabled && decide (splitCommaStrip cfg.bsky_queries ≠ [])) bs
        ++ okRows (cfg.mastodon_enabled && decide (splitCommaStrip cfg.mastodon_queries ≠ [])) ms)) := by
  simp [run_scan_for_org, applySource_fst, List.append_assoc]

theorem run_scan_warnings (cfg : ScanConfig) (rd xr bs ms : Except String AdapterOutput) :
    (run_scan_for_org cfg rd xr bs ms).warnings =
      errWarn (decide (redditAttempted cfg)) rd reddit_warning
        ++ (errWarn (cfg.x_enabled && decide (splitCommaStrip cfg.x_queries ≠ [])) xr x_warning
        ++ (errWarn (cfg.bsky_enabled && decide (splitCommaStrip cfg.bsky_queries ≠ [])) bs bsky_warning
        ++ errWarn (cfg.mastodon_enabled && decide (splitCommaStrip cfg.mastodon_queries ≠ [])) ms mastodon_warning)) := by
  simp [run_scan_for_org, applySource_fst, List.append_assoc]

theorem run_scan_summary (cfg : ScanConfig) (rd xr bs ms : Except String AdapterOutput) :
    (run_scan_for_org cfg rd xr bs ms).summary =
      merge_summaries (merge_summaries (merge_summaries (merge_summaries []
        (okSum (decide (redditAttempted cfg)) rd))
        (okSum (cfg.x_enabled && decide (splitCommaStrip cfg.x_queries ≠ [])) xr))
        (okSum (cfg.bsky_enabled && decide (splitCommaStrip cfg.bsky_queries ≠ [])) bs))
        (okSum (cfg.mastodon_enabled && decide (splitCommaStrip cfg.mastodon_queries ≠ [])) ms) := by
  simp [run_scan_for_org, applySource_fst]

theorem and_decide (b : Bool) (p : Prop) [Decidable p] :
    (b && decide p) = decide (b = true ∧ p) := by
  cases b <;> by_cases hp : p <;> simp [hp]

theorem leadsWith_append :
    ∀ (n s t : List Char), leadsWith n s = true → leadsWith n (s ++ t) = true := by
  intro n
  induction n with
  | nil => intro s t _; rfl
  | cons a as ih =>
    intro s t h
    cases s with
    | nil => simp [leadsWith] at h
    | cons b bs =>
      simp only [leadsWith, Bool.and_eq_true, decide_eq_true_eq] at h
      simp only [List.cons_append, leadsWith, Bool.and_eq_true, decide_eq_true_eq]
      exact ⟨h.1, ih bs t h.2⟩

theorem containsStr_append_left (n s t : String)
    (h : leadsWith n.data s.data = true) : containsStr n (s ++ t) = true := by
  rw [containsStr]
  apply List.any_eq_true.mpr
  refine ⟨s.data ++ t.data, ?_, ?_⟩
  · rw [← String.data_append]
    exact (List.mem_tails _ _).mpr (List.suffix_refl _)
  · exact leadsWith_append _ _ _ h

theorem reddit_warning_contains (e : String) :
    containsStr "Reddit" (reddit_warning e) = true :=
  containsStr_append_left _ _ _ (by decide)

theorem x_warning_contains (e : String) :
    containsStr "X" (x_warning e) = true := by
  rw [x_warning]
  split_ifs <;> first
    | decide
    | exact containsStr_append_left _ _ _ (by decide)

theorem bsky_warning_contains (e : String) :
    containsStr "Bluesky" (bsky_warning e) = true := by
  rw [bsky_warning]
  split_ifs <;> first
    | decide
    | exact containsStr_append_left _ _ _ (by decide)

theorem mastodon_warning_contains (e : String) :
    containsStr "Mastodon" (mastodon_warning e) = true := by
  rw [mastodon_warning]
  split_ifs <;> first
    | decide
    | exact containsStr_append_left _ _ _ (by decide)

theorem okRows_error (att : Bool) (e : String) :
    okRows att (Except.error e) = [] := by
  cases att <;> simp [okRows]

theorem mem_okRows (att : Bool) (res : Except String AdapterOutput) (r : Row)
    (h : r ∈ okRows att res) : ∃ out, res = Except.ok out ∧ r ∈ out.rows := by
  cases att <;> cases res <;> simp [okRows] at h
  exact ⟨_, rfl, h⟩

theorem okRows_nil_of_fail (attP : Prop) [Decidable attP]
    (res : Except String AdapterOutput)
    (h : attP → ∃ e, res = Except.error e) : okRows (decide attP) res = [] := by
  by_cases hp : attP
  · obtain ⟨e, he⟩ := h hp
    subst he
    exact okRows_error _ e
  · simp [decide_eq_false hp, okRows]

theorem errWarn_mem (attP : Prop) [Decidable attP] (hp : attP) (e : String)
    (w : String → String) :
    w e ∈ errWarn (decide attP) (Except.error e) w := by
  simp [errWarn, decide_eq_true hp]

/-- C2: for every organization configuration and every combination of
adapter outcomes, `run_scan_for_org` completes and persists exactly one
scan; a source that was attempted and raised appends a warning naming that
source; no row from a failing source appears in the scan; and when every
attempted source fails the scan is persisted with no rows and the
warnings of all failures (the source-tagging hypotheses record that each
adapter labels its own rows, proved above as `scan_subreddits_inv`,
`scan_x_queries_inv`, `scan_bsky_queries_inv` and
`scan_mastodon_queries_inv`). -/
theorem run_scan_partial_failure (cfg : ScanConfig)
    (rd xr bs ms : Except String AdapterOutput) (db : List Scan)
    (hr : ∀ out, rd = Except.ok out → ∀ r ∈ out.rows, r.source = "Reddit")
    (hx : ∀ out, xr = Except.ok out → ∀ r ∈ out.rows, r.source = "X")
    (hb : ∀ out, bs = Except.ok out → ∀ r ∈ out.rows, r.source = "Bluesky")
    (hm : ∀ out, ms = Except.ok out → ∀ r ∈ out.rows, r.source = "Mastodon") :
    (persistScans db (run_scan_for_org cfg rd xr bs ms)).length = db.length + 1 ∧
    (persistScans db (run_scan_for_org cfg rd xr bs ms)).getLast?
      = some (run_scan_for_org cfg rd xr bs ms) ∧
    (∀ e, redditAttempted cfg → rd = Except.error e →
      ∃ w ∈ (run_scan_for_org cfg rd xr bs ms).warnings,
        containsStr "Reddit" w = true) ∧
    (∀ e, xAttempted cfg → xr = Except.error e →
      ∃ w ∈ (run_scan_for_org cfg rd xr bs ms).warnings,
        containsStr "X" w = true) ∧
    (∀ e, bskyAttempted cfg → bs = Except.error e →
      ∃ w ∈ (run_scan_for_org cfg rd xr bs ms).warnings,
        containsStr "Bluesky" w = true) ∧
    (∀ e, mastodonAttempted cfg → ms = Except.error e →
      ∃ w ∈ (run_scan_for_org cfg rd xr bs ms).warnings,
        containsStr "Mastodon" w = true) ∧
    (∀ e, rd = Except.error e →
      ∀ r ∈ (run_scan_for_org cfg rd xr bs ms).rows, r.source ≠ "Reddit") ∧
    (∀ e, xr = Except.error e →
      ∀ r ∈ (run_scan_for_org cfg rd xr bs ms).rows, r.source ≠ "X") ∧
    (∀ e, bs = Except.error e →
      ∀ r ∈ (run_scan_for_org cfg rd xr bs ms).rows, r.source ≠ "Bluesky") ∧
    (∀ e, ms = Except.error e →
      ∀ r ∈ (run_scan_for_org cfg rd xr bs ms).rows, r.source ≠ "Mastodon") ∧
    ((redditAttempted cfg → ∃ e, rd = Except.error e) →
      (xAttempted cfg → ∃ e, xr = Except.error e) →
      (bskyAttempted cfg → ∃ e, bs = Except.error e) →
      (mastodonAttempted cfg → ∃ e, ms = Except.error e) →
      (run_scan_for_org cfg rd xr bs ms).rows = []) := by
  have hxa : (cfg.x_enabled && decide (splitCommaStrip cfg.x_queries ≠ []))
      = decide (xAttempted cfg) := by
    rw [and_decide]
    rfl
  have hba : (cfg.bsky_enabled && decide (splitCommaStrip cfg.bsky_queries ≠ []))
      = decide (bskyAttempted cfg) := by
    rw [and_decide]
    rfl
  have hma : (cfg.mastodon_enabled && decide (splitCommaStrip cfg.mastodon_queries ≠ []))
      = decide (mastodonAttempted cfg) := by
    rw [and_decide]
    rfl
  have hrows := run_scan_rows cfg rd xr bs ms
  have hwarn := run_scan_warnings cfg rd xr bs ms
  rw [hxa, hba, hma] at hrows hwarn
  have hsrc : ∀ r ∈ (run_scan_for_org cfg rd xr bs ms).rows,
      r.source = "Reddit" ∨ r.source = "X" ∨ r.source = "Bluesky"
        ∨ r.source = "Mastodon" ∨ False := by
    intro r hrr
    rw [hrows] at hrr
    rcases List.mem_append.mp hrr with h | h
    · obtain ⟨out, ho, hro⟩ := mem_okRows _ _ _ h
      exact Or.inl (hr out ho r hro)
    rcases List.mem_append.mp h with h | h
    · obtain ⟨out, ho, hro⟩ := mem_okRows _ _ _ h
      exact Or.inr (Or.inl (hx out ho r hro))
    rcases List.mem_append.mp h with h | h
    · obtain ⟨out, ho, hro⟩ := mem_okRows _ _ _ h
      exact Or.inr (Or.inr (Or.inl (hb out ho r hro)))
    · obtain ⟨out, ho, hro⟩ := mem_okRows _ _ _ h
      exact Or.inr (Or.inr (Or.inr (Or.inl (hm out ho r hro))))
  refine ⟨by simp [persistScans], List.getLast?_concat _, ?_, ?_, ?_, ?_,
    ?_, ?_, ?_, ?_, ?_⟩
  · intro e hatt herr
    subst herr
    refine ⟨reddit_warning e, ?_, reddit_warning_contains e⟩
    rw [hwarn]
    exact List.mem_append_left _ (errWarn_mem _ hatt e _)
  · intro e hatt herr
    subst herr
    refine ⟨x_warning e, ?_, x_warning_contains e⟩
    rw [hwarn]
    exact List.mem_append_right _
      (List.mem_append_left _ (errWarn_mem _ hatt e _))
  · intro e hatt herr
    subst herr
    refine ⟨bsky_warning e, ?_, bsky_warning_contains e⟩
    rw [hwarn]
    exact List.mem_append_right _ (List.mem_append_right _
      (List.mem_append_left _ (errWarn_mem _ hatt e _)))
  · intro e hatt herr
    subst herr
    refine ⟨mastodon_warning e, ?_, mastodon_warning_contains e⟩
    rw [hwarn]
    exact List.mem_append_right _ (List.mem_append_right _
      (List.mem_append_right _ (errWarn_mem _ hatt e _)))
  · intro e herr r hrr hcon
    rcases hsrc r hrr with h | h | h | h | h
    · rw [hrows] at hrr
      rcases List.mem_append.mp hrr with h2 | h2
      · obtain ⟨out, ho, _⟩ := mem_okRows _ _ _ h2
        rw [herr] at ho
        cases ho
      · rcases List.mem_append.mp h2 with h3 | h3
        · obtain ⟨out, ho, hro⟩ := mem_okRows _ _ _ h3
          have := hx out ho r hro
          rw [this] at h
          exact absurd h (by decide)
        rcases List.mem_append.mp h3 with h4 | h4
        · obtain ⟨out, ho, hro⟩ := mem_okRows _ _ _ h4
          have := hb out ho r hro
          rw [this] at h
          exact absurd h (by decide)
        · obtain ⟨out, ho, hro⟩ := mem_okRows _ _ _ h4
          have := hm out ho r hro
          rw [this] at h
          exact absurd h (by decide)
    · exact absurd (h ▸ hcon) (by decide)
    · exact absurd (h ▸ hcon) (by decide)
    · exact absurd (h ▸ hcon) (by decide)
    · exact h
  · intro e herr r hrr hcon
    rcases hsrc r hrr with h | h | h | h | h
    · exact absurd (h ▸ hcon) (by decide)
    · rw [hrows] at hrr
      rcases List.mem_append.mp hrr with h2 | h2
      · obtain ⟨out, ho, hro⟩ := mem_okRows _ _ _ h2
        have := hr out ho r hro
        rw [this] at h
        exact absurd h (by decide)
      · rcases List.mem_append.mp h2 with h3 | h3
        · obtain ⟨out, ho, _⟩ := mem_okRows _ _ _ h3
          rw [herr] at ho
          cases ho
        rcases List.mem_append.mp h3 with h4 | h4
        · obtain ⟨out, ho, hro⟩ := mem_okRows _ _ _ h4
          have := hb out ho r hro
          rw [this] at h
          exact absurd h (by decide)
        · obtain ⟨out, ho, hro⟩ := mem_okRows _ _ _ h4
          have := hm out ho r hro
          rw [this] at h
          exact absurd h (by decide)
    · exact absurd (h ▸ hcon) (by decide)
    · exact absurd (h ▸ hcon) (by decide)
    · exact h
  · intro e herr r hrr hcon
    rcases hsrc r hrr with h | h | h | h | h
    · exact absurd (h ▸ hcon) (by decide)
    · exact absurd (h ▸ hcon) (by decide)
    · rw [hrows] at hrr
      rcases List.mem_append.mp hrr with h2 | h2
      · obtain ⟨out, ho, hro⟩ := mem_okRows _ _ _ h2
        have := hr out ho r hro
        rw [this] at h
        exact absurd h (by decide)
      · rcases List.mem_append.mp h2 with h3 | h3
        · obtain ⟨out, ho, hro⟩ := mem_okRows _ _ _ h3
          have := hx out ho r hro
          rw [this] at h
          exact absurd h (by decide)
        rcases List.mem_append.mp h3 with h4 | h4
        · obtain ⟨out, ho, _⟩ := mem_okRows _ _ _ h4
          rw [herr] at ho
          cases ho
        · obtain ⟨out, ho, hro⟩ := mem_okRows _ _ _ h4
          have := hm out ho r hro
          rw [this] at h
          exact absurd h (by decide)
    · exact absurd (h ▸ hcon) (by decide)
    · exact h
  · intro e herr r hrr hcon
    rcases hsrc r hrr with h | h | h | h | h
    · exact absurd (h ▸ hcon) (by decide)
    · exact absurd (h ▸ hcon) (by decide)
    · exact absurd (h ▸ hcon) (by decide)
    · rw [hrows] at hrr
      rcases List.mem_append.mp hrr with h2 | h2
      · obtain ⟨out, ho, hro⟩ := mem_okRows _ _ _ h2
        have := hr out ho r hro
        rw [this] at h
        exact absurd h (by decide)
      · rcases List.mem_append.mp h2 with h3 | h3
        · obtain ⟨out, ho, hro⟩ := mem_okRows _ _ _ h3
          have := hx out ho r hro
          rw [this] at h
          exact absurd h (by decide)
        rcases List.mem_append.mp h3 with h4 | h4
        · obtain ⟨out, ho, hro⟩ := mem_okRows _ _ _ h4
          have := hb out ho r hro
          rw [this] at h
          exact absurd h (by decide)
        · obtain ⟨out, ho, _⟩ := mem_okRows _ _ _ h4
          rw [herr] at ho
          cases ho
    · exact h
  · intro h1 h2 h3 h4
    rw [hrows, okRows_nil_of_fail _ _ h1, okRows_nil_of_fail _ _ h2,
      okRows_nil_of_fail _ _ h3, okRows_nil_of_fail _ _ h4]
    rfl

/-- Witness for C2: with Reddit and X attempted and both raising, the scan
persists with a Reddit warning, an X warning and no rows. -/
theorem run_scan_partial_failure_witness :
    (persistScans []
      (run_scan_for_org witnessCfg (Except.error "boom")
        (Except.error "X_AUTH_ERROR: Unauthorized")
        (Except.error "e3") (Except.error "e4"))).length = 1 ∧
    (∃ w ∈ (run_scan_for_org witnessCfg (Except.error "boom")
        (Except.error "X_AUTH_ERROR: Unauthorized")
        (Except.error "e3") (Except.error "e4")).warnings,
      containsStr "Reddit" w = true) ∧
    (∃ w ∈ (run_scan_for_org witnessCfg (Except.error "boom")
        (Except.error "X_AUTH_ERROR: Unauthorized")
        (Except.error "e3") (Except.error "e4")).warnings,
      containsStr "X" w = true) ∧
    (run_scan_for_org witnessCfg (Except.error "boom")
        (Except.error "X_AUTH_ERROR: Unauthorized")
        (Except.error "e3") (Except.error "e4")).rows = [] := by
  have h := run_scan_partial_failure witnessCfg (Except.error "boom")
    (Except.error "X_AUTH_ERROR: Unauthorized")
    (Except.error "e3") (Except.error "e4") []
    (fun out ho => by cases ho) (fun out ho => by cases ho)
    (fun out ho => by cases ho) (fun out ho => by cases ho)
  exact ⟨h.1,
    h.2.2.1 "boom" (by decide) rfl,
    h.2.2.2.1 "X_AUTH_ERROR: Unauthorized" (by decide) rfl,
    h.2.2.2.2.2.2.2.2.2.2 (fun _ => ⟨"boom", rfl⟩)
      (fun _ => ⟨"X_AUTH_ERROR: Unauthorized", rfl⟩)
      (fun _ => ⟨"e3", rfl⟩) (fun _ => ⟨"e4", rfl⟩)⟩

theorem sumMentions_okSum (att : Bool) (res : Except String AdapterOutput)
    (h : ∀ out, res = Except.ok out → sumMentions out.summary = out.rows.length) :
    sumMentions (okSum att res) = (okRows att res).length := by
  cases att <;> cases res <;> simp [okSum, okRows, sumMentions_nil]
  exact h _ rfl

theorem adapterResult_sum {α : Type} (run : α → AdapterOutput)
    (input : Option α) (err : String)
    (hrun : ∀ a, sumMentions (run a).summary = (run a).rows.length) :
    ∀ out, adapterResult run input err = Except.ok out →
      sumMentions out.summary = out.rows.length := by
  intro out ho
  cases input with
  | none => cases ho
  | some a =>
    injection ho with ho2
    rw [← ho2]
    exact hrun a

/-- C4: for every scan produced by `run_scan_for_org` — any organization
configuration, any fetched data for each adapter, any subset of adapters
raising instead — the total of `mentions` over the scan's idea summaries
equals the number of the scan's matched rows: each appended row bumps
exactly one bucket by one and `merge_summaries` adds the totals. -/
theorem scan_mentions_total (cfg : ScanConfig)
    (rdIn : Option RedditArgs) (xIn : Option XArgs)
    (bIn : Option BskyArgs) (mIn : Option MastoArgs)
    (eR eX eB eM : String) :
    sumMentions (run_scan_for_org cfg
        (adapterResult runReddit rdIn eR) (adapterResult runX xIn eX)
        (adapterResult runBsky bIn eB) (adapterResult runMasto mIn eM)).summary
      = (run_scan_for_org cfg
        (adapterResult runReddit rdIn eR) (adapterResult runX xIn eX)
        (adapterResult runBsky bIn eB) (adapterResult runMasto mIn eM)).rows.length := by
  have hR : ∀ out, adapterResult runReddit rdIn eR = Except.ok out →
      sumMentions out.summary = out.rows.length :=
    adapterResult_sum runReddit rdIn eR
      (fun a => (scan_subreddits_inv a.subs a.now a.since_days
        a.include_comments a.comment_limit a.require_app_request).1)
  have hX : ∀ out, adapterResult runX xIn eX = Except.ok out →
      sumMentions out.summary = out.rows.length :=
    adapterResult_sum runX xIn eX
      (fun a => (scan_x_queries_inv a.queries a.limit a.now).1)
  have hB : ∀ out, adapterResult runBsky bIn eB = Except.ok out →
      sumMentions out.summary = out.rows.length :=
    adapterResult_sum runBsky bIn eB
      (fun a => (scan_bsky_queries_inv a.queries).1)
  have hM : ∀ out, adapterResult runMasto mIn eM = Except.ok out →
      sumMentions out.summary = out.rows.length :=
    adapterResult_sum runMasto mIn eM
      (fun a => (scan_mastodon_queries_inv a.queries a.now a.since_days).1)
  rw [run_scan_summary, run_scan_rows]
  rw [sumMentions_merge, sumMentions_merge, sumMentions_merge, sumMentions_merge]
  rw [sumMentions_okSum _ _ hR, sumMentions_okSum _ _ hX,
    sumMentions_okSum _ _ hB, sumMentions_okSum _ _ hM]
  simp only [sumMentions_nil, List.length_append]
  omega

theorem InvSum_okSum (att : Bool) (res : Except String AdapterOutput)
    (h : ∀ out, res = Except.ok out → InvSum out.summary) :
    InvSum (okSum att res) := by
  cases att <;> cases res <;>
    first
      | exact fun e he => absurd he (List.not_mem_nil e)
      | exact h _ rfl

/-- C5: every bucket an adapter accumulates, and every target bucket after
merging any number of partial summaries with `merge_summaries`, satisfies
`pay_mentions ≤ mentions`: the accumulation increments `pay_mentions` only
together with `mentions`, and merging sums both fields. -/
theorem summary_pay_le_mentions :
    (∀ a : RedditArgs, InvSum (runReddit a).summary) ∧
    (∀ a : XArgs, InvSum (runX a).summary) ∧
    (∀ a : BskyArgs, InvSum (runBsky a).summary) ∧
    (∀ a : MastoArgs, InvSum (runMasto a).summary) ∧
    (∀ (target : Summary) (partials : List Summary),
      InvSum target → (∀ s ∈ partials, InvSum s) →
      InvSum (partials.foldl merge_summaries target)) := by
  refine ⟨?_, ?_, ?_, ?_, ?_⟩
  · exact fun a => (scan_subreddits_inv a.subs a.now a.since_days
      a.include_comments a.comment_limit a.require_app_request).2.1
  · exact fun a => (scan_x_queries_inv a.queries a.limit a.now).2.1
  · exact fun a => (scan_bsky_queries_inv a.queries).2.1
  · exact fun a => (scan_mastodon_queries_inv a.queries a.now a.since_days).2.1
  · intro target partials ht hp
    induction partials generalizing target with
    | nil => exact ht
    | cons s rest ih =>
      exact ih _ (InvSum_merge target s ht (hp s (List.mem_cons_self _ _)))
        (fun u hu => hp u (List.mem_cons_of_mem _ hu))

/-- Witness for C5 at a concrete merge: two partial summaries for the same
idea key, one with a pay signal and one without, merge into a bucket with
`mentions = 2` and `pay_mentions = 1`. -/
theorem summary_pay_le_mentions_witness :
    InvSum ([[("expense tracking budget",
        { mentions := 1, pay_mentions := 1, sources := {"Reddit"},
          subreddits := {"SaaS"}, sample_title := "t1", sample_url := "u1" })],
      [("expense tracking budget",
        { mentions := 1, pay_mentions := 0, sources := {"Reddit"},
          subreddits := {"SaaS"}, sample_title := "t2", sample_url := "u2" })]].foldl
        merge_summaries []) :=
  summary_pay_le_mentions.2.2.2.2 [] _ (by decide) (by decide)

/-- Counterexample to C9: `scan_bsky_queries` receives no `since_days` and
inspects no timestamps, so a matching post created at epoch 0 is returned
even though it is far older than `now - since_days` for any current `now`
(here `now = 1700000000`, `since_days = 7`): the Bluesky adapter applies
no client-side cutoff. -/
theorem bsky_no_cutoff_counterexample :
    ((scan_bsky_queries [("app for", [oldBskyPost])]).rows.map Row.created)
      = [some 0] ∧
    (0 : Int) < 1700000000 - 7 * 86400 := by decide

/-- C9 as amended: only Reddit filters every item client-side against
`now - since_days`; Mastodon filters client-side when `since_days > 0` and
the status carries a timestamp; X requests the window from the provider
via a `start_time` of `since_days` clamped into 1..7 days; Bluesky applies
no cutoff (see the counterexample); and Reddit's comment traversal calls
`replace_more(limit=0)`, which removes the unexpanded "load more" stubs
rather than expanding them. -/
theorem since_days_cutoff_amended :
    (∀ (subs : List (String × List Submission)) (now : Int) (sd : Int)
        (ic : Bool) (cl : Int) (rar : Bool),
      ∀ r ∈ (scan_subreddits subs now sd ic cl rar).rows,
        ∃ t, r.created = some t ∧ now - sd * 86400 ≤ t) ∧
    (∀ (qs : List (String × List MastoStatus)) (now : Int) (sd : Int),
      0 < sd → ∀ r ∈ (scan_mastodon_queries qs now sd).rows,
        r.created = none ∨ ∃ t, r.created = some t ∧ now - sd * 86400 ≤ t) ∧
    (∀ (now : Int) (d : Int),
      x_start_time now d
        = now - (if d < 1 then 1 else if 7 < d then 7 else d) * 86400) := by
  refine ⟨?_, ?_, ?_⟩
  · intro subs now sd ic cl rar r hr
    exact ((scan_subreddits_inv subs now sd ic cl rar).2.2 r hr).2
  · intro qs now sd hsd r hr
    exact ((scan_mastodon_queries_inv qs now sd).2.2 r hr).2
      (now - sd * 86400) (by rw [if_pos hsd])
  · intro now d
    rw [x_start_time]
    have hmm : (min (max d 1) 7 : Int)
        = (if d < 1 then 1 else if 7 < d then 7 else d) := by
      rw [max_def, min_def]
      split_ifs <;> omega
    rw [hmm]

/-- Witness for the amended C9 at a concrete Reddit scan: the returned
row's creation time is at or after the cutoff `now - since_days` (here
`now = 1000`, `since_days = 0`). -/
theorem since_days_cutoff_amended_witness :
    ∃ t, witnessRedditRow.created = some t ∧
      (1000 : Int) - 0 * 86400 ≤ t :=
  since_days_cutoff_amended.1 [("s", [witnessSubmission])] 1000 0 false 0 false
    witnessRedditRow (by decide)

/-- C6: with a previous-scan map available, a row's momentum is `"New"`
exactly when the map lacks its idea key (and the deltas are then null);
with a previous entry the deltas are the differences, and momentum is
`"Up"` iff the mention delta is at least 3, `"Down"` iff it is at most −3,
and `"Flat"` otherwise. -/
theorem enrich_momentum (row : SummaryRowIn) (d : Int)
    (pm : List (String × PrevRow)) :
    ((enrich_row row d (some pm)).momentum = "New" ↔
      lookupPrev pm row.idea_key = none) ∧
    (lookupPrev pm row.idea_key = none →
      (enrich_row row d (some pm)).delta_mentions = none ∧
      (enrich_row row d (some pm)).delta_pay = none) ∧
    (∀ p, lookupPrev pm row.idea_key = some p →
      (enrich_row row d (some pm)).delta_mentions
          = some (row.mentions - p.mentions) ∧
      (enrich_row row d (some pm)).delta_pay
          = some (row.pay_mentions - p.pay_mentions) ∧
      ((enrich_row row d (some pm)).momentum = "Up" ↔
        3 ≤ row.mentions - p.mentions) ∧
      ((enrich_row row d (some pm)).momentum = "Down" ↔
        row.mentions - p.mentions ≤ -3) ∧
      ((enrich_row row d (some pm)).momentum = "Flat" ↔
        (-3 < row.mentions - p.mentions ∧ row.mentions - p.mentions < 3))) := by
  cases hp : lookupPrev pm row.idea_key with
  | none =>
    refine ⟨?_, ?_, ?_⟩
    · simp [enrich_row, hp]
    · intro _
      simp [enrich_row, hp]
    · intro p hp2
      cases hp2
  | some p =>
    refine ⟨?_, ?_, ?_⟩
    · simp only [enrich_row, hp]
      split_ifs with h1 h2 <;> simp <;> omega
    · intro h
      cases h
    · intro p2 hp2
      injection hp2 with hp3
      subst hp3
      refine ⟨by simp [enrich_row, hp], by simp [enrich_row, hp], ?_, ?_, ?_⟩
      · simp only [enrich_row, hp]
        split_ifs with h1 h2 <;> simp <;> omega
      · simp only [enrich_row, hp]
        split_ifs with h1 h2 <;> simp <;> omega
      · simp only [enrich_row, hp]
        split_ifs with h1 h2 <;> simp <;> omega

/-- Witness for C6 at the spec's example: previous mentions 5, current 9,
so the mention delta is 4 and momentum is `"Up"`; at a key absent from the
previous map momentum is `"New"`. -/
theorem enrich_momentum_witness :
    (enrich_row
      { idea_key := "expense tracking budget", mentions := 9,
        pay_mentions := 1, sources := "Reddit", subreddits := "SaaS" }
      30 (some [("expense tracking budget", { mentions := 5, pay_mentions := 0 })])).momentum
      = "Up" ∧
    (enrich_row
      { idea_key := "fresh idea", mentions := 2, pay_mentions := 0,
        sources := "Reddit", subreddits := "SaaS" }
      30 (some [("expense tracking budget", { mentions := 5, pay_mentions := 0 })])).momentum
      = "New" := by
  constructor
  · exact (((enrich_momentum
      { idea_key := "expense tracking budget", mentions := 9,
        pay_mentions := 1, sources := "Reddit", subreddits := "SaaS" }
      30 [("expense tracking budget", { mentions := 5, pay_mentions := 0 })]).2.2
      { mentions := 5, pay_mentions := 0 } (by decide)).2.2.1).mpr (by decide)
  · exact ((enrich_momentum
      { idea_key := "fresh idea", mentions := 2, pay_mentions := 0,
        sources := "Reddit", subreddits := "SaaS" }
      30 [("expense tracking budget", { mentions := 5, pay_mentions := 0 })]).1).mpr
      (by decide)

theorem roundHalfEven_intCast (z : ℤ) : roundHalfEven (z : ℚ) = z := by
  simp only [roundHalfEven, Int.floor_intCast, sub_self]
  norm_num

/-- Counterexample to C7: at `mentions = 3`, `pay_mentions = 1` the code
stores `round((1/3)*100, 1) = 33.3`, which differs from the claim's exact
`100 * 1 / 3 = 33.333...`. -/
theorem pay_ratio_rounding_counterexample :
    EnrichedRow.pay_ratio (enrich_row
      { idea_key := "k", mentions := 3, pay_mentions := 1,
        sources := "Reddit", subreddits := "SaaS" } 30 none) = 333 / 10 ∧
    (333 / 10 : ℚ) ≠ 100 * 1 / 3 := by
  constructor
  · show (if (3 : Int) ≠ 0 then
        pyRound (((1 : Int) : ℚ) / ((3 : Int) : ℚ) * 100) 1 else 0) = 333 / 10
    rw [if_pos (by decide)]
    have e1 : ((1 : Int) : ℚ) / ((3 : Int) : ℚ) * 100 * (10 : ℚ) ^ (1 : ℕ)
        = 1000 / 3 := by
      push_cast
      ring
    have hf : ⌊(1000 / 3 : ℚ)⌋ = 333 := Int.floor_eq_iff.mpr (by norm_num)
    simp only [pyRound, roundHalfEven, e1, hf]
    norm_num
  · norm_num

/-- C7 as amended: the signal level is exactly the High/Medium/Low
else-chain of the source thresholds; `pay_ratio` is `100 × pay/mentions`
rounded to one decimal digit (0 when `mentions` is 0) and
`mentions_per_day` is `mentions / lookbackDays` rounded to two decimal
digits (0 when the lookback is 0). -/
theorem enrich_signal_ratio (row : SummaryRowIn) (d : Int)
    (pmO : Option (List (String × PrevRow))) :
    ((enrich_row row d pmO).signal = "High" ↔
      (2 ≤ row.pay_mentions ∨ 12 ≤ row.mentions)) ∧
    ((enrich_row row d pmO).signal = "Medium" ↔
      (¬ (2 ≤ row.pay_mentions ∨ 12 ≤ row.mentions) ∧
        (1 ≤ row.pay_mentions ∨ 5 ≤ row.mentions))) ∧
    ((enrich_row row d pmO).signal = "Low" ↔
      (¬ (2 ≤ row.pay_mentions ∨ 12 ≤ row.mentions) ∧
        ¬ (1 ≤ row.pay_mentions ∨ 5 ≤ row.mentions))) ∧
    EnrichedRow.pay_ratio (enrich_row row d pmO)
      = (if row.mentions ≠ 0 then
          pyRound ((row.pay_mentions : ℚ) / (row.mentions : ℚ) * 100) 1
        else 0) ∧
    (enrich_row row d pmO).mentions_per_day
      = (if d ≠ 0 then pyRound ((row.mentions : ℚ) / (d : ℚ)) 2 else 0) := by
  refine ⟨?_, ?_, ?_, rfl, rfl⟩
  · simp only [enrich_row]
    split_ifs with h1 h2
    · exact iff_of_true rfl h1
    · exact iff_of_false (by decide) h1
    · exact iff_of_false (by decide) h1
  · simp only [enrich_row]
    split_ifs with h1 h2
    · exact iff_of_false (by decide) (fun hc => hc.1 h1)
    · exact iff_of_true rfl ⟨h1, h2⟩
    · exact iff_of_false (by decide) (fun hc => h2 hc.2)
  · simp only [enrich_row]
    split_ifs with h1 h2
    · exact iff_of_false (by decide) (fun hc => hc.1 h1)
    · exact iff_of_false (by decide) (fun hc => hc.2 h2)
    · exact iff_of_true rfl ⟨h1, h2⟩

/-- Witness for the amended C7 at the spec's example: 1 pay mention out of
2 mentions gives `pay_ratio = 50.0` and a Medium signal. -/
theorem enrich_signal_ratio_witness :
    EnrichedRow.pay_ratio (enrich_row
      { idea_key := "expense tracking budget", mentions := 2,
        pay_mentions := 1, sources := "Reddit", subreddits := "SaaS" }
      30 none) = 50 ∧
    (enrich_row
      { idea_key := "expense tracking budget", mentions := 2,
        pay_mentions := 1, sources := "Reddit", subreddits := "SaaS" }
      30 none).signal = "Medium" := by
  have h := enrich_signal_ratio
    { idea_key := "expense tracking budget", mentions := 2,
      pay_mentions := 1, sources := "Reddit", subreddits := "SaaS" } 30 none
  constructor
  · rw [h.2.2.2.1, if_pos (by decide)]
    have e1 : ((1 : Int) : ℚ) / ((2 : Int) : ℚ) * 100 * (10 : ℚ) ^ (1 : ℕ)
        = ((500 : ℤ) : ℚ) := by
      push_cast
      ring
    simp only [pyRound, e1, roundHalfEven_intCast]
    norm_num
  · exact h.2.1.mpr (by decide)

/-- Counterexample to C8: a schedule with the non-zero interval `-5` and
no previous run is not invoked (the code skips `interval <= 0`), though
the claim's "non-zero interval and no last_run" condition holds. -/
theorem run_due_scans_nonzero_counterexample :
    run_due_scans 0 (fun _ => true)
      [{ org_id := 1, interval_hours := -5, last_run_utc := none }]
      = [{ org_id := 1, invoked := false, last_run_utc := none }] ∧
    (-5 : Int) ≠ 0 := by decide

theorem tickOne_org (now : Int) (success : Nat → Bool) (s : Schedule) :
    (tickOne now success s).org_id = s.org_id := by
  cases hl : s.last_run_utc <;> simp only [tickOne, hl] <;> split_ifs <;> rfl

theorem tickOne_invoked (now : Int) (success : Nat → Bool) (s : Schedule) :
    ((tickOne now success s).invoked = true ↔
      (0 < s.interval_hours ∧ (s.last_run_utc = none ∨
        ∃ t, s.last_run_utc = some t ∧ s.interval_hours * 3600 ≤ now - t))) := by
  cases hl : s.last_run_utc with
  | none =>
    simp only [tickOne, hl]
    split_ifs with h0 hsucc <;> simp <;> omega
  | some t =>
    simp only [tickOne, hl]
    split_ifs with h0 hd hsucc <;> simp <;> omega

theorem tickOne_last_run (now : Int) (success : Nat → Bool) (s : Schedule) :
    ((tickOne now success s).invoked = true → success s.org_id = true →
      (tickOne now success s).last_run_utc = some now) ∧
    ((tickOne now success s).invoked = true → success s.org_id = false →
      (tickOne now success s).last_run_utc = s.last_run_utc) ∧
    ((tickOne now success s).invoked = false →
      (tickOne now success s).last_run_utc = s.last_run_utc) := by
  cases hl : s.last_run_utc <;> simp only [tickOne, hl] <;>
    split_ifs with h0 h1 h2 <;> simp_all

/-- C8 as amended: on one scheduler tick every schedule row yields a
result; the orchestrator is invoked exactly when the interval is positive
("non-zero" fails on negative intervals, see the counterexample) and the
organization is due (`last_run` absent, or `now - last_run` at least the
interval); `last_run` becomes `now` only when the run succeeds, is left
unchanged when the run raises, and each row's result is a function of that
row and its own run outcome alone, so one organization's failure cannot
affect the others in the same tick. -/
theorem run_due_scans_spec (now : Int) (success : Nat → Bool)
    (schedules : List Schedule) :
    (run_due_scans now success schedules).length = schedules.length ∧
    (∀ (i : Nat) (s : Schedule), schedules[i]? = some s →
      ∃ r, (run_due_scans now success schedules)[i]? = some r ∧
        r = tickOne now success s ∧
        r.org_id = s.org_id ∧
        (r.invoked = true ↔
          (0 < s.interval_hours ∧ (s.last_run_utc = none ∨
            ∃ t, s.last_run_utc = some t ∧
              s.interval_hours * 3600 ≤ now - t))) ∧
        (r.invoked = true → success s.org_id = true →
          r.last_run_utc = some now) ∧
        (r.invoked = true → success s.org_id = false →
          r.last_run_utc = s.last_run_utc) ∧
        (r.invoked = false → r.last_run_utc = s.last_run_utc)) := by
  refine ⟨by simp [run_due_scans], ?_⟩
  intro i s hs
  refine ⟨tickOne now success s, ?_, rfl, tickOne_org now success s,
    tickOne_invoked now success s, (tickOne_last_run now success s).1,
    (tickOne_last_run now success s).2.1, (tickOne_last_run now success s).2.2⟩
  rw [run_due_scans, List.getElem?_map, hs]
  rfl

/-- Witness for the amended C8 at the spec's example (interval 24 hours):
an organization last run 30 hours ago is invoked and its `last_run_utc`
becomes `now` on success; one last run 10 hours ago is not invoked and
keeps its `last_run_utc`. -/
theorem run_due_scans_spec_witness :
    (∃ r, (run_due_scans 0 (fun _ => true)
        [{ org_id := 1, interval_hours := 24, last_run_utc := some (-108000) },
         { org_id := 2, interval_hours := 24, last_run_utc := some (-36000) }])[0]?
      = some r ∧ r.invoked = true ∧ r.last_run_utc = some 0) ∧
    (∃ r, (run_due_scans 0 (fun _ => true)
        [{ org_id := 1, interval_hours := 24, last_run_utc := some (-108000) },
         { org_id := 2, interval_hours := 24, last_run_utc := some (-36000) }])[1]?
      = some r ∧ r.invoked = false ∧ r.last_run_utc = some (-36000)) := by
  constructor
  · obtain ⟨r, hr, hre, _, hiff, hup, _, _⟩ :=
      (run_due_scans_spec 0 (fun _ => true)
        [{ org_id := 1, interval_hours := 24, last_run_utc := some (-108000) },
         { org_id := 2, interval_hours := 24, last_run_utc := some (-36000) }]).2
        0 { org_id := 1, interval_hours := 24, last_run_utc := some (-108000) } rfl
    have hi : r.invoked = true :=
      hiff.mpr ⟨by decide, Or.inr ⟨-108000, rfl, by decide⟩⟩
    exact ⟨r, hr, hi, hup hi rfl⟩
  · obtain ⟨r, hr, hre, _, hiff, _, _, hkeep⟩ :=
      (run_due_scans_spec 0 (fun _ => true)
        [{ org_id := 1, interval_hours := 24, last_run_utc := some (-108000) },
         { org_id := 2, interval_hours := 24, last_run_utc := some (-36000) }]).2
        1 { org_id := 2, interval_hours := 24, last_run_utc := some (-36000) } rfl
    have hi : r.invoked = false := by
      cases hv : r.invoked with
      | false => rfl
      | true =>
        rcases hiff.mp hv with ⟨_, h2 | ⟨t, h2, h3⟩⟩
        · cases h2
        · injection h2 with h4
          subst h4
          exact absurd h3 (by decide)
    exact ⟨r, hr, hi, hkeep hi⟩

/-- C1 evaluation at the spec's example: the compiled patterns contain
literal backslashes (each source pattern is a *raw* string, so `r"\\b"`
reaches `re.compile` as an escaped backslash plus the letter `b`, not a
word boundary), and therefore no pattern matches ordinary text.
`match_groups` returns no categories at all for
`"I'd pay for an app that tracks my expenses"` — against the claimed
`{app_request, pay}` with `willing_to_pay = "yes"` — so the item would not
even be recorded; the empty string yields the empty set as claimed. -/
theorem match_groups_example_empty :
    match_groups "I\x27d pay for an app that tracks my expenses" = [] ∧
    match_groups "" = [] := by decide
